import Mathlib

/-!
Verification of the Graal/HotSpot code-installer core (`graalCodeInstaller.cpp`,
`graalCodeInstaller.hpp`, `graalCodeInstaller_sparc.hpp`) against its
natural-language specification.  The C++ is shallowly embedded: the mutable
installer fields become an explicit state record, fatal aborts
(`fatal`, `guarantee`, `assert`, `ShouldNotReachHere`) become error results,
and the recorder side effects (safepoints, scopes, relocations, stubs) become
an explicit event list.
-/

set_option linter.unusedVariables false
set_option linter.unreachableTactic false
set_option linter.unusedTactic false

namespace Graal

/-! ## Buffer Layout Engine: constants-section sizing (claim C4)

`CodeInstaller::initialize_fields` pre-computes `_constants_size` from the raw
data-section length and the constant section alignment; `CodeInstaller::install`
afterwards checks `cb->code_begin() - cb->content_begin() == _constants_size`
with a fatal `guarantee`. -/

/-- HotSpot `align_size_up(size, alignment)` for a positive power-of-two
alignment: `(size + alignment - 1) & ~(alignment - 1)`, expressed over `Nat`
as clearing the remainder of the bumped value. -/
def alignSizeUp (size alignment : Nat) : Nat :=
  (size + alignment - 1) - (size + alignment - 1) % alignment

/-- The `_constants_size` computation in `CodeInstaller::initialize_fields`:
`_constants_size = data_section()->length(); if (_constants_size > 0)
_constants_size = align_size_up(_constants_size, _constants->alignment());`. -/
def computeConstantsSize (dataSectionLength constantsAlignment : Nat) : Nat :=
  if dataSectionLength > 0 then alignSizeUp dataSectionLength constantsAlignment
  else dataSectionLength

/-- The spec wording for the same figure: the raw data-section length rounded
up to the next multiple of the alignment. -/
def specRoundUp (len alignment : Nat) : Nat :=
  (len + alignment - 1) / alignment * alignment

/-- Outcome of the post-registration `guarantee` in `CodeInstaller::install`. -/
inductive PostCheck
  | passed
  | fatalMismatch
deriving DecidableEq, Repr

/-- The post-hoc `guarantee((cb->code_begin() - cb->content_begin()) ==
_constants_size, ...)` in `CodeInstaller::install`: a mismatching boundary
is a fatal abort. -/
def installConstantsGuarantee (boundary constantsSize : Nat) : PostCheck :=
  if boundary = constantsSize then .passed else .fatalMismatch

/-! ## Reference Map Builder (claim C5)

`set_vmreg_oops` in `graalCodeInstaller.cpp` decodes three bit-vector bits per
slot index (is-reference, narrow half 1, narrow half 2) and records the slot
into the oop map. -/

/-- `MapWordBits` from `graalCodeInstaller.cpp`: the reference-map bit-vectors
are arrays of 64-bit words. -/
def MapWordBits : Nat := 64

/-- `is_bit_set(words, i)`: test bit `i % 64` of word `i / 64`. -/
def isBitSet (words : List Nat) (i : Nat) : Bool :=
  Nat.testBit (words.getD (i / MapWordBits) 0) (i % MapWordBits)

/-- One recording made into a HotSpot `OopMap`.  `reg` is the VMReg slot index;
`reg->next()` is modelled as `reg + 1`. -/
inductive OopMark
  | oopAt (reg : Nat)
  | narrowoopAt (reg : Nat)
  | valueAt (reg : Nat)
deriving DecidableEq, Repr

/-- `set_vmreg_oops(map, reg, words, idx)`: consult bits `3*idx`,
`3*idx + 1`, `3*idx + 2`; the returned list holds the recordings made into
the map, in order. -/
def setVmregOops (reg : Nat) (words : List Nat) (idx : Nat) : List OopMark :=
  let is_oop := isBitSet words (3 * idx)
  if is_oop then
    let narrow1 := isBitSet words (3 * idx + 1)
    let narrow2 := isBitSet words (3 * idx + 2)
    if narrow1 || narrow2 then
      (if narrow1 then [OopMark.narrowoopAt reg] else []) ++
        (if narrow2 then [OopMark.narrowoopAt (reg + 1)] else [])
    else [OopMark.oopAt reg]
  else [OopMark.valueAt reg]

/-- Whether a recording marks a managed reference (full or narrow). -/
def OopMark.isReferenceMark : OopMark → Bool
  | .oopAt _ => true
  | .narrowoopAt _ => true
  | .valueAt _ => false

/-! ## Scope recorder: the reexecute bit (claim C6) -/

/-- Java bytecodes as dispatched by `bytecode_should_reexecute`: the five
invoke bytecodes are distinguished, everything else falls to the default. -/
inductive Bytecode
  | invokedynamic
  | invokevirtual
  | invokeinterface
  | invokespecial
  | invokestatic
  | otherBytecode (code : Nat)
deriving DecidableEq, Repr

/-- `bytecode_should_reexecute(code)` from `graalCodeInstaller.cpp`: false for
the five invoke bytecodes, true otherwise. -/
def bytecodeShouldReexecute : Bytecode → Bool
  | .invokedynamic => false
  | .invokevirtual => false
  | .invokeinterface => false
  | .invokespecial => false
  | .invokestatic => false
  | .otherBytecode _ => true

/-- Whether a bytecode is one of the five invoke (call) bytecodes. -/
def isInvokeBytecode : Bytecode → Bool
  | .invokedynamic => true
  | .invokevirtual => true
  | .invokeinterface => true
  | .invokespecial => true
  | .invokestatic => true
  | .otherBytecode _ => false

/-- The reexecute computation in `CodeInstaller::record_scope` (Graal variant),
translated literally, keeping the redundant inner `frame != NULL` test.
`hasFrame`: the position is a `BytecodeFrame`; `bciIsSyncEntry`: the bci equals
the synchronization-entry marker; `duringCall`: `BytecodeFrame::duringCall`. -/
def computeReexecute (hasFrame bciIsSyncEntry : Bool) (code : Bytecode)
    (duringCall : Bool) : Bool :=
  if hasFrame then
    if bciIsSyncEntry then false
    else
      let r := bytecodeShouldReexecute code
      if hasFrame then !duringCall else r
  else false

/-- The claim's reexecute rule, written from the spec's words: false by
default for call bytecodes, true for other bytecodes, overridden to false
exactly when the frame is during a call, and false at the
synchronization-entry bci. -/
def claimedReexecute (hasFrame bciIsSyncEntry : Bool) (code : Bytecode)
    (duringCall : Bool) : Bool :=
  if !hasFrame then false
  else if bciIsSyncEntry then false
  else if duringCall then false
  else bytecodeShouldReexecute code

/-! ## Exception handler table (claim C7) -/

/-- A `CompilationResult_ExceptionHandler` site: a covered pc offset and the
handler's position. -/
structure ExceptionHandlerSite where
  pcOffset : Int
  handlerPos : Int
deriving DecidableEq, Repr

/-- A HotSpot `HandlerTableEntry` as constructed in
`process_exception_handlers`: the first component is the subtable length for a
header entry and `-1` (the bci slot) for a handler entry. -/
structure HandlerTableEntry where
  bciOrLen : Int
  pco : Int
  scopeDepth : Int
deriving DecidableEq, Repr

/-- `CodeInstaller::process_exception_handlers` (Graal variant): for every
handler, append a subtable header entry `(1, pc_offset, 0)` followed by the
single handler entry `(-1, handler_offset, 0)`. -/
def processExceptionHandlers (handlers : List ExceptionHandlerSite) :
    List HandlerTableEntry :=
  handlers.foldl
    (fun table exc =>
      table ++ [⟨1, exc.pcOffset, 0⟩, ⟨-1, exc.handlerPos, 0⟩])
    []

/-- The table shape the claim describes, written from the spec's words:
consecutive handlers sharing one pc-offset form a single subtable, one header
entry for that pc-offset (carrying the group size) followed by one entry per
handler in the group.  `fuel` makes the run-grouping structurally recursive;
`claimedGroupedTable` instantiates it with enough fuel. -/
def claimedGroupedTableFuel : Nat → List ExceptionHandlerSite → List HandlerTableEntry
  | 0, _ => []
  | _, [] => []
  | fuel + 1, h :: t =>
    let group := (h :: t).takeWhile (fun e => e.pcOffset = h.pcOffset)
    let rest := (h :: t).dropWhile (fun e => e.pcOffset = h.pcOffset)
    (⟨(group.length : Int), h.pcOffset, 0⟩ ::
        group.map (fun e => ⟨-1, e.handlerPos, 0⟩)) ++
      claimedGroupedTableFuel fuel rest

/-- The grouped table of the claim (fuel instantiated with the list length,
which always suffices since each step consumes at least one handler). -/
def claimedGroupedTable (handlers : List ExceptionHandlerSite) :
    List HandlerTableEntry :=
  claimedGroupedTableFuel handlers.length handlers

/-! ## Orchestrator: recoverable failures (claim C8) -/

/-- `GraalEnv::CodeInstallResult` values returned by `CodeInstaller::install`
(the non-fatal, typed results). -/
inductive CodeInstallResult
  | installOk
  | cacheFull
  | codeTooLarge
deriving DecidableEq, Repr

/-- The code copy in `CodeInstaller::initialize_buffer`: `allocates2(end_pc)`
checks that `start + _code_size` stays within the instruction section before
any byte is copied; on failure it returns false and the section keeps its
initial contents, otherwise the code bytes are copied in whole. -/
def initializeBufferCopy (capacity codeSize : Nat) (codeBytes sect0 : List Nat) :
    Bool × List Nat :=
  if codeSize ≤ capacity then (true, codeBytes) else (false, sect0)

/-- The acquisition / layout prefix of `CodeInstaller::install`: a missing
scratch buffer blob returns `cache_full`; a failing `initialize_buffer`
returns `code_too_large`.  Both are ordinary return values, not fatal aborts.
The second component is the final instruction-section contents. -/
def installLayout (bufferBlobCapacity : Option Nat) (codeSize : Nat)
    (codeBytes sect0 : List Nat) : CodeInstallResult × List Nat :=
  match bufferBlobCapacity with
  | none => (.cacheFull, sect0)
  | some capacity =>
    match initializeBufferCopy capacity codeSize codeBytes sect0 with
    | (false, s) => (.codeTooLarge, s)
    | (true, s) => (.installOk, s)

/-! ## Site Processor (claims C1, C2, C10)

The loop in `CodeInstaller::initialize_buffer` dispatches each site to
`site_Call`, `site_Safepoint`, `site_Infopoint`, `site_DataPatch` or
`site_Mark`.  The mutable installer fields `_next_call_type` and
`_invoke_mark_pc` become an explicit state record; fatal aborts become
`Except Unit` errors; recorder and relocation side effects become events. -/

/-- The `MarkId` enumeration from `graalCodeInstaller.hpp` (integer values of
the boxed mark ids coming from the Java side). -/
def VERIFIED_ENTRY : Int := 1

def UNVERIFIED_ENTRY : Int := 2

def OSR_ENTRY : Int := 3

def EXCEPTION_HANDLER_ENTRY : Int := 4

def DEOPT_HANDLER_ENTRY : Int := 5

def INVOKEINTERFACE : Int := 6

def INVOKEVIRTUAL : Int := 7

def INVOKESTATIC : Int := 8

def INVOKESPECIAL : Int := 9

def INLINE_INVOKE : Int := 10

def POLL_NEAR : Int := 11

def POLL_RETURN_NEAR : Int := 12

def POLL_FAR : Int := 13

def POLL_RETURN_FAR : Int := 14

def INVOKE_INVALID : Int := -1

/-- The kind of native instruction found at a call site's pc offset
(`NativeInstruction::is_call() || is_jump()`, `is_sethi()`, or anything
else), as inspected by the sparc `pd_next_offset`. -/
inductive InstKind
  | callOrJump
  | sethi
  | otherInst
deriving DecidableEq, Repr

/-- The target of a `CompilationResult_Call` site after the klass dispatch in
`site_Call`: a `HotSpotForeignCallLinkage` (with its resolved destination) or
a Java method.  A `NULL` target is modelled by `Option.none` in `CallSite`. -/
inductive CallTargetKind
  | foreignCall (destination : Int)
  | javaMethod (methodId : Nat)
deriving DecidableEq, Repr

/-- The `DebugInfo` attached to a site, reduced to what the site dispatch
consumes: whether a `bytecodePosition` frame chain is present. -/
structure DebugInfoDesc where
  hasFrame : Bool
deriving DecidableEq, Repr

/-- A `CompilationResult_Call` site. -/
structure CallSite where
  pcOffset : Nat
  target : Option CallTargetKind
  debugInfo : Option DebugInfoDesc
  instKind : InstKind
deriving DecidableEq, Repr

/-- The `InfopointReason` values dispatched in `initialize_buffer`: the first
three denote actual safepoints. -/
inductive InfoReason
  | safepointReason
  | callReason
  | implicitException
  | methodStart
  | methodEnd
  | lineNumber
deriving DecidableEq, Repr

/-- A `CompilationResult_Infopoint` site. -/
structure InfopointSite where
  pcOffset : Nat
  reason : InfoReason
  debugInfo : Option DebugInfoDesc
deriving DecidableEq, Repr

/-- The reference carried by a `CompilationResult_DataPatch` site. -/
inductive PatchReference
  | objectConstantRef
  | metaspaceConstantRef
  | unknownConstantRef
  | dataSectionRef (dataOffset : Int)
  | unknownRef
deriving DecidableEq, Repr

/-- A `CompilationResult_DataPatch` site. -/
structure DataPatchSite where
  pcOffset : Nat
  reference : PatchReference
deriving DecidableEq, Repr

/-- A `CompilationResult_Mark` site; `id = none` models a `NULL` boxed id. -/
structure MarkSite where
  pcOffset : Nat
  id : Option Int
deriving DecidableEq, Repr

/-- A site of the compiled-method descriptor. -/
inductive Site
  | call (s : CallSite)
  | infopoint (s : InfopointSite)
  | dataPatch (s : DataPatchSite)
  | mark (s : MarkSite)
deriving DecidableEq, Repr

/-- The mutable installer fields consumed by the site loop:
`_next_call_type`, `_invoke_mark_pc`, and the instruction-section start
address used to turn pc offsets into addresses. -/
structure InstallerState where
  nextCallType : Int
  invokeMarkPc : Nat
  instStart : Nat
deriving DecidableEq, Repr

/-- The state after `initialize_fields`, which ends with
`_next_call_type = INVOKE_INVALID` (the `_invoke_mark_pc` field is not yet
meaningful; it is only consumed after an invoke mark sets it). -/
def initialInstallerState (instStart : Nat) : InstallerState :=
  ⟨INVOKE_INVALID, 0, instStart⟩

/-- Relocation kinds attached by the site routines (sparc backend). -/
inductive RelocKind
  | virtualCallReloc (markAddress : Nat)
  | staticCallReloc
  | optVirtualCallReloc
  | runtimeCallReloc
  | pollReloc (markId : Int)
deriving DecidableEq, Repr

/-- Observable side effects of processing one site: debug-recorder calls,
relocations, static-call stubs and entry-point offsets. -/
inductive InstallEvent
  | addSafepoint (pcOffset : Nat)
  | recordScopeAt (pcOffset : Nat)
  | endSafepoint (pcOffset : Nat)
  | addNonSafepoint (pcOffset : Nat)
  | endNonSafepoint (pcOffset : Nat)
  | relocateAt (address : Nat) (kind : RelocKind)
  | emitStaticCallStub (address : Nat)
  | setCodeOffset (markId : Int) (pcOffset : Nat)
deriving DecidableEq, Repr

/-- `CodeInstaller::pd_next_offset` (sparc): the offset of the instruction
after the call.  The two native instruction sizes are platform constants of
the hosting VM (not part of this repository) and are passed as parameters; an
unsupported instruction kind is `fatal`. -/
def pdNextOffset (callInstSize farCallInstSize : Nat) (inst : InstKind)
    (pcOffset : Nat) : Except Unit Nat :=
  match inst with
  | .callOrJump => .ok (pcOffset + callInstSize)
  | .sethi => .ok (pcOffset + farCallInstSize)
  | .otherInst => .error ()

/-- `CodeInstaller::pd_relocate_JavaMethod` (sparc): dispatch on the pending
`_next_call_type`.  Inline invokes emit nothing; virtual/interface calls get a
virtual-call relocation carrying `_invoke_mark_pc`; static calls a static-call
relocation; special calls an optimized-virtual relocation; any other pending
value (including `INVOKE_INVALID`) is `fatal`. -/
def pdRelocateJavaMethod (st : InstallerState) (pcOffset : Nat) :
    Except Unit (List InstallEvent) :=
  if st.nextCallType = INLINE_INVOKE then .ok []
  else if st.nextCallType = INVOKEVIRTUAL ∨ st.nextCallType = INVOKEINTERFACE then
    .ok [.relocateAt (st.instStart + pcOffset) (.virtualCallReloc st.invokeMarkPc)]
  else if st.nextCallType = INVOKESTATIC then
    .ok [.relocateAt (st.instStart + pcOffset) .staticCallReloc]
  else if st.nextCallType = INVOKESPECIAL then
    .ok [.relocateAt (st.instStart + pcOffset) .optVirtualCallReloc]
  else .error ()

/-- The debug-recorder calls `site_Call` makes before relocating, when debug
info is attached: record the reference map, and the scope when a frame chain
is present, at the next instruction's offset. -/
def callDebugEvents (di : Option DebugInfoDesc) (nextPcOffset : Nat) :
    List InstallEvent :=
  match di with
  | some d =>
    [InstallEvent.addSafepoint nextPcOffset] ++
      (if d.hasFrame then [InstallEvent.recordScopeAt nextPcOffset] else [])
  | none => []

/-- The `end_safepoint` call `site_Call` makes after relocating, when debug
info is attached, again at the next instruction's offset. -/
def callEndEvents (di : Option DebugInfoDesc) (nextPcOffset : Nat) :
    List InstallEvent :=
  match di with
  | some _ => [InstallEvent.endSafepoint nextPcOffset]
  | none => []

/-- `CodeInstaller::site_Call`: require exactly one target kind; compute the
next instruction's offset; if debug info is attached, record the reference map
(and, with a frame, the scope) at that next offset; relocate the call (foreign
calls get a runtime-call relocation, Java-method calls dispatch on the pending
call type and may need a compiled-to-interpreted stub); reset
`_next_call_type` to `INVOKE_INVALID`; finally end the safepoint at the next
offset. -/
def siteCall (callInstSize farCallInstSize : Nat) (st : InstallerState)
    (s : CallSite) : Except Unit (InstallerState × List InstallEvent) :=
  match s.target with
  | none => .error ()
  | some tgt =>
    match pdNextOffset callInstSize farCallInstSize s.instKind s.pcOffset with
    | .error e => .error e
    | .ok nextPcOffset =>
      match tgt with
      | .foreignCall _ =>
        .ok ({ st with nextCallType := INVOKE_INVALID },
          callDebugEvents s.debugInfo nextPcOffset ++
            [InstallEvent.relocateAt (st.instStart + s.pcOffset) .runtimeCallReloc] ++
            callEndEvents s.debugInfo nextPcOffset)
      | .javaMethod _ =>
        match s.debugInfo with
        | none => .error ()
        | some _ =>
          match pdRelocateJavaMethod st s.pcOffset with
          | .error e => .error e
          | .ok evs =>
            .ok ({ st with nextCallType := INVOKE_INVALID },
              callDebugEvents s.debugInfo nextPcOffset ++
                (evs ++
                  (if st.nextCallType = INVOKESTATIC ∨
                      st.nextCallType = INVOKESPECIAL then
                    [InstallEvent.emitStaticCallStub (st.instStart + s.pcOffset)]
                  else [])) ++
                callEndEvents s.debugInfo nextPcOffset)

/-- `CodeInstaller::site_Safepoint`: missing debug info is an assertion
failure; otherwise record the reference map, the scope when a frame chain is
present, and end the safepoint, all at the site's own offset. -/
def siteSafepoint (st : InstallerState) (s : InfopointSite) :
    Except Unit (InstallerState × List InstallEvent) :=
  match s.debugInfo with
  | none => .error ()
  | some di =>
    .ok (st,
      [InstallEvent.addSafepoint s.pcOffset] ++
        (if di.hasFrame then [InstallEvent.recordScopeAt s.pcOffset] else []) ++
        [InstallEvent.endSafepoint s.pcOffset])

/-- `CodeInstaller::site_Infopoint` (non-safepoint reasons): record a
non-safepoint annotation; no oop map is installed. -/
def siteInfopoint (st : InstallerState) (s : InfopointSite) :
    Except Unit (InstallerState × List InstallEvent) :=
  match s.debugInfo with
  | none => .error ()
  | some di =>
    .ok (st,
      [InstallEvent.addNonSafepoint s.pcOffset] ++
        (if di.hasFrame then [InstallEvent.recordScopeAt s.pcOffset] else []) ++
        [InstallEvent.endNonSafepoint s.pcOffset])

/-- `CodeInstaller::site_DataPatch`: object constants are patched, metaspace
constants recorded, data-section references bounds-checked against
`_constants_size` (out of bounds or unknown reference kinds are fatal). -/
def siteDataPatch (constantsSize : Int) (st : InstallerState)
    (s : DataPatchSite) : Except Unit (InstallerState × List InstallEvent) :=
  match s.reference with
  | .objectConstantRef => .ok (st, [])
  | .metaspaceConstantRef => .ok (st, [])
  | .unknownConstantRef => .error ()
  | .dataSectionRef dataOffset =>
    if 0 ≤ dataOffset ∧ dataOffset < constantsSize then .ok (st, [])
    else .error ()
  | .unknownRef => .error ()

/-- `CodeInstaller::site_Mark`: a `NULL` id is a no-op; entry-point ids record
the offset; the five invoke ids set `_next_call_type` and remember the
marking instruction's address; poll ids relocate the polling instruction; any
other id is `ShouldNotReachHere`. -/
def siteMark (st : InstallerState) (s : MarkSite) :
    Except Unit (InstallerState × List InstallEvent) :=
  match s.id with
  | none => .ok (st, [])
  | some id =>
    let pc := st.instStart + s.pcOffset
    if id = UNVERIFIED_ENTRY ∨ id = VERIFIED_ENTRY ∨ id = OSR_ENTRY ∨
        id = EXCEPTION_HANDLER_ENTRY ∨ id = DEOPT_HANDLER_ENTRY then
      .ok (st, [InstallEvent.setCodeOffset id s.pcOffset])
    else if id = INVOKEVIRTUAL ∨ id = INVOKEINTERFACE ∨ id = INLINE_INVOKE ∨
        id = INVOKESTATIC ∨ id = INVOKESPECIAL then
      .ok ({ st with nextCallType := id, invokeMarkPc := pc }, [])
    else if id = POLL_NEAR ∨ id = POLL_FAR ∨ id = POLL_RETURN_NEAR ∨
        id = POLL_RETURN_FAR then
      .ok (st, [InstallEvent.relocateAt pc (.pollReloc id)])
    else .error ()

/-- One iteration of the site loop in `CodeInstaller::initialize_buffer`:
dispatch on the site subclass, treating infopoints whose reason is
SAFEPOINT, CALL or IMPLICIT_EXCEPTION as safepoints. -/
def processSite (callInstSize farCallInstSize : Nat) (constantsSize : Int)
    (st : InstallerState) : Site → Except Unit (InstallerState × List InstallEvent)
  | .call s => siteCall callInstSize farCallInstSize st s
  | .infopoint s =>
    if s.reason = InfoReason.safepointReason ∨ s.reason = InfoReason.callReason ∨
        s.reason = InfoReason.implicitException then
      siteSafepoint st s
    else siteInfopoint st s
  | .dataPatch s => siteDataPatch constantsSize st s
  | .mark s => siteMark st s

/-- The site loop itself: process the sites in input order, accumulating
events; the first fatal abort stops installation. -/
def processSites (callInstSize farCallInstSize : Nat) (constantsSize : Int)
    (st : InstallerState) :
    List Site → Except Unit (InstallerState × List InstallEvent)
  | [] => .ok (st, [])
  | s :: rest =>
    match processSite callInstSize farCallInstSize constantsSize st s with
    | .error e => .error e
    | .ok (st1, evs1) =>
      match processSites callInstSize farCallInstSize constantsSize st1 rest with
      | .error e => .error e
      | .ok (st2, evs2) => .ok (st2, evs1 ++ evs2)

/-- `CodeInstaller::estimate_stub_entries`: count the mark sites whose boxed
id is INVOKESTATIC or INVOKESPECIAL (the loop is translated as structural
recursion over the site list). -/
def estimateStubEntries : List Site → Nat
  | [] => 0
  | .mark m :: rest =>
    (match m.id with
      | some id => if id = INVOKESTATIC ∨ id = INVOKESPECIAL then 1 else 0
      | none => 0) + estimateStubEntries rest
  | _ :: rest => estimateStubEntries rest

/-- The stub-section reservation in `initialize_buffer`:
`estimate_stub_entries() * CompiledStaticCall::to_interp_stub_size()`. -/
def reservedStubSpace (sites : List Site) (toInterpStubSize : Nat) : Nat :=
  estimateStubEntries sites * toInterpStubSize

/-- Whether an event is the emission of a compiled-to-interpreted static call
stub. -/
def InstallEvent.isStubEvent : InstallEvent → Bool
  | .emitStaticCallStub _ => true
  | _ => false

/-- The number of compiled-to-interpreted static call stubs emitted during
site processing. -/
def countStubEvents (evs : List InstallEvent) : Nat :=
  evs.countP InstallEvent.isStubEvent

/-- Whether the pending call type currently entitles the next Java-method
call to one static call stub (`INVOKESTATIC` or `INVOKESPECIAL`). -/
def stubCredit (st : InstallerState) : Nat :=
  if st.nextCallType = INVOKESTATIC ∨ st.nextCallType = INVOKESPECIAL then 1
  else 0

/-- Events that are debug-recorder calls (used to separate the safepoint /
scope recordings of `site_Call` from its relocation output). -/
def InstallEvent.isDebugRecorderEvent : InstallEvent → Bool
  | .addSafepoint _ => true
  | .recordScopeAt _ => true
  | .endSafepoint _ => true
  | .addNonSafepoint _ => true
  | .endNonSafepoint _ => true
  | _ => false

/-! ## Scope values and virtual objects (claims C3, C9)

`CodeInstaller::get_scope_value` translates compiler `Value`s into HotSpot
`ScopeValue`s.  Virtual objects are deduplicated through the growing
`objects` pool; object graphs may be cyclic, so a `VirtualObject` reference
is modelled as an id into an environment giving each id its type and field
values (in the C++ the reference is a Java object pointer; the id
indirection makes sharing and cycles explicit).  Fuel is consumed exactly
when a novel virtual object is registered, so the number of distinct ids
bounds the fuel needed. -/

/-- HotSpot `Location::Type` values used by `get_scope_value`. -/
inductive LocType
  | normalLoc
  | oopLoc
  | narrowoopLoc
  | intInLongLoc
  | lngLoc
  | dblLoc
deriving DecidableEq, Repr

/-- The `BasicType` of a value (via `GraalRuntime::kindToBasicType`). -/
inductive BType
  | tBoolean
  | tByte
  | tChar
  | tShort
  | tInt
  | tFloat
  | tLong
  | tDouble
  | tObject
deriving DecidableEq, Repr

/-- A compiler `Value` as consumed by `get_scope_value` /
`get_monitor_value`: registers, stack slots, constants, virtual-object
references (by id) and monitors.  `isReference` is the `LIRKind` reference
mask (asserted to be 0 or 1 in the source); constants carry their implicit
mask (primitive and metaspace constants 0, object and null constants 1). -/
inductive GValue
  | illegalVal
  | registerValue (number : Nat) (type : BType) (isReference : Bool)
  | stackSlot (offset : Int) (addFrameSize : Bool) (type : BType) (isReference : Bool)
  | rawConst (prim : Int)
  | primConst (type : BType) (prim : Int)
  | nullConst
  | objConst (objId : Nat)
  | metaspaceConst (prim : Int)
  | vobj (id : Nat)
  | monitorValue (owner : GValue) (slot : GValue) (eliminated : Bool)
deriving DecidableEq, Repr

/-- A HotSpot `ScopeValue` as produced by `get_scope_value`
(`LocationValue`, `ConstantIntValue`, `ConstantLongValue`,
`ConstantOopWriteValue`, `ObjectValue`).  An `ObjectValue` is referenced
through its pool id, so pointer identity in the C++ becomes id identity. -/
inductive SV
  | illegalSV
  | regLoc (lt : LocType) (number : Nat)
  | stkLoc (lt : LocType) (offset : Int)
  | constInt (v : Int)
  | constLong (v : Int)
  | constOopNull
  | constOop (objId : Nat)
  | objRef (id : Nat)
deriving DecidableEq, Repr

/-- A materialized `ObjectValue` record in the `objects` pool: its id and
its (eventually filled) field values. -/
structure ObjRec where
  id : Nat
  fieldValues : List SV
deriving DecidableEq, Repr

/-- The growing `GrowableArray` `objects` pool of `record_scope`. -/
abbrev Pool := List ObjRec

/-- What a `VirtualObject` oop carries: whether its type is the long-array
klass, and its `values` array. -/
structure VObjDesc where
  isLongArray : Bool
  values : List GValue
deriving DecidableEq, Repr

/-- The virtual-object environment: the (finite) collection of
`VirtualObject` oops of one debug-info graph, indexed by id. -/
structure VObjEnv where
  entries : List (Nat × VObjDesc)
deriving DecidableEq, Repr

def VObjEnv.lookup (env : VObjEnv) (id : Nat) : Option VObjDesc :=
  (env.entries.find? (fun e => e.1 = id)).map (fun e => e.2)

def VObjEnv.ids (env : VObjEnv) : List Nat := env.entries.map (fun e => e.1)

def poolIds (p : Pool) : List Nat := p.map (fun r => r.id)

/-- Filling in a registered object's field values (the C++ appends to the
`ObjectValue` in place; ids are preserved). -/
def setFields (p : Pool) (id : Nat) (fs : List SV) : Pool :=
  p.map (fun r => if r.id = id then ⟨r.id, fs⟩ else r)

/-- Platform facts `get_scope_value` consults: byte order
(`VM_LITTLE_ENDIAN`), the general-purpose / floating-point partition of the
mapped registers (`is_general_purpose_reg` after `get_hotspot_reg`, supplied
per architecture), and the sparc bias added to non-negative stack offsets. -/
structure Platform where
  littleEndian : Bool
  isGeneralPurposeReg : Nat → Bool
  useStackBias : Bool

/-- Result of scope-value resolution: fatal aborts (`assert`, `guarantee`,
`ShouldNotReachHere`) and fuel exhaustion are distinguished; the latter
never happens with fuel at least the number of unregistered ids. -/
inductive RRes (α : Type)
  | ok (a : α)
  | fatalAbort
  | outOfFuel
deriving DecidableEq, Repr

/-- The `(jint)` cast applied to int/float primitive constants. -/
def jintOf (i : Int) : Int := (i + 2 ^ 31) % 2 ^ 32 - 2 ^ 31

mutual

/-- `CodeInstaller::get_scope_value`.  The out-parameter `second` becomes the
third component of the result; the `objects` pool is threaded through.  A
`VirtualObject` whose id is already in the pool returns the existing
(possibly still under construction) record; a novel one is appended to the
pool before its field values are resolved.  Fuel is consumed only at that
registration. -/
def getScopeValueN (P : Platform) (env : VObjEnv) (totalFrameSize : Int) :
    Nat → GValue → Pool → RRes (Pool × SV × Option SV)
  | _, GValue.illegalVal, pool => .ok (pool, SV.illegalSV, none)
  | _, GValue.registerValue number type reference, pool =>
    if P.isGeneralPurposeReg number then
      if type = BType.tInt then
        .ok (pool,
          SV.regLoc (if reference then LocType.narrowoopLoc else LocType.intInLongLoc) number,
          none)
      else if type = BType.tShort ∨ type = BType.tChar ∨ type = BType.tByte ∨
          type = BType.tBoolean then
        .ok (pool, SV.regLoc LocType.intInLongLoc number, none)
      else if type = BType.tFloat then
        .ok (pool, SV.regLoc LocType.intInLongLoc number, none)
      else if type = BType.tLong then
        .ok (pool, SV.regLoc (if reference then LocType.oopLoc else LocType.lngLoc) number,
          if reference then none
          else some (SV.regLoc (if reference then LocType.oopLoc else LocType.lngLoc) number))
      else if type = BType.tObject ∧ reference = true then
        .ok (pool, SV.regLoc LocType.oopLoc number, none)
      else .fatalAbort
    else
      if type = BType.tFloat then
        if reference then .fatalAbort
        else .ok (pool, SV.regLoc LocType.normalLoc number, none)
      else if type = BType.tDouble then
        if reference then .fatalAbort
        else .ok (pool, SV.regLoc LocType.dblLoc number,
          some (SV.regLoc LocType.dblLoc number))
      else .fatalAbort
  | _, GValue.stackSlot offset addFrameSize type reference, pool =>
    let offset1 : Int := if P.useStackBias ∧ 0 ≤ offset then offset + 128 else offset
    let offset2 : Int := if addFrameSize then offset1 + totalFrameSize else offset1
    if type = BType.tLong then
      .ok (pool, SV.stkLoc (if reference then LocType.oopLoc else LocType.lngLoc) offset2,
        if reference then none
        else some (SV.stkLoc (if reference then LocType.oopLoc else LocType.lngLoc) offset2))
    else if type = BType.tInt then
      .ok (pool,
        SV.stkLoc (if reference then LocType.narrowoopLoc else LocType.normalLoc) offset2,
        none)
    else if type = BType.tShort ∨ type = BType.tChar ∨ type = BType.tByte ∨
        type = BType.tBoolean then
      .ok (pool, SV.stkLoc LocType.normalLoc offset2, none)
    else if type = BType.tFloat then
      if reference then .fatalAbort
      else .ok (pool, SV.stkLoc LocType.normalLoc offset2, none)
    else if type = BType.tDouble then
      if reference then .fatalAbort
      else .ok (pool, SV.stkLoc LocType.dblLoc offset2,
        some (SV.stkLoc LocType.dblLoc offset2))
    else if type = BType.tObject ∧ reference = true then
      .ok (pool, SV.stkLoc LocType.oopLoc offset2, none)
    else .fatalAbort
  | _, GValue.rawConst prim, pool => .ok (pool, SV.constLong prim, none)
  | _, GValue.primConst type prim, pool =>
    if type = BType.tInt ∨ type = BType.tFloat then
      .ok (pool, SV.constInt (jintOf prim), none)
    else if type = BType.tLong ∨ type = BType.tDouble then
      .ok (pool, SV.constLong prim, some (SV.constInt 1))
    else .fatalAbort
  | _, GValue.nullConst, pool => .ok (pool, SV.constOopNull, none)
  | _, GValue.objConst objId, pool => .ok (pool, SV.constOop objId, none)
  | _, GValue.metaspaceConst _, pool => .fatalAbort
  | n, GValue.vobj id, pool =>
    match pool.find? (fun r => r.id = id) with
    | some _ => .ok (pool, SV.objRef id, none)
    | none =>
      match env.lookup id with
      | none => .fatalAbort
      | some desc =>
        match n with
        | 0 => .outOfFuel
        | n' + 1 =>
          match resolveFieldsN P env totalFrameSize n' desc.isLongArray
              desc.values (pool ++ [⟨id, []⟩]) with
          | .fatalAbort => .fatalAbort
          | .outOfFuel => .outOfFuel
          | .ok (pool2, fvs) => .ok (setFields pool2 id fvs, SV.objRef id, none)
  | _, GValue.monitorValue _ _ _, _ => .fatalAbort
termination_by n _ _ => (n, 0)

/-- The field loop of the `VirtualObject` branch of `get_scope_value`: each
field value is resolved against the current pool; when the object is a long
array and the field is single-width, an int-0 filler is added with
byte-order-dependent placement; a second (continuation) value is appended
before the value itself. -/
def resolveFieldsN (P : Platform) (env : VObjEnv) (totalFrameSize : Int) :
    Nat → Bool → List GValue → Pool → RRes (Pool × List SV)
  | _, _, [], pool => .ok (pool, [])
  | n, isLA, v :: rest, pool =>
    match getScopeValueN P env totalFrameSize n v pool with
    | .fatalAbort => .fatalAbort
    | .outOfFuel => .outOfFuel
    | .ok (pool1, sv, curSecond) =>
      let pair : SV × Option SV :=
        if isLA ∧ curSecond = none then
          (if P.littleEndian then (sv, some (SV.constInt 0))
          else (SV.constInt 0, some sv))
        else (sv, curSecond)
      match resolveFieldsN P env totalFrameSize n isLA rest pool1 with
      | .fatalAbort => .fatalAbort
      | .outOfFuel => .outOfFuel
      | .ok (pool2, svs) =>
        .ok (pool2,
          (match pair.2 with
            | some s => [s, pair.1]
            | none => [pair.1]) ++ svs)
termination_by n _ l _ => (n, l.length + 1)

end

/-- `CodeInstaller::get_monitor_value`: the owner must be single-width, the
lock slot must be a double-width value whose continuation is itself (the
C++ compares the `second` pointer with the returned value), and it must
resolve to a genuine location. -/
def getMonitorValueN (P : Platform) (env : VObjEnv) (totalFrameSize : Int)
    (n : Nat) (v : GValue) (pool : Pool) : RRes (Pool × (SV × SV × Bool)) :=
  match v with
  | GValue.monitorValue owner slot eliminated =>
    match getScopeValueN P env totalFrameSize n owner pool with
    | .fatalAbort => .fatalAbort
    | .outOfFuel => .outOfFuel
    | .ok (pool1, ownerSV, second1) =>
      match second1 with
      | some _ => .fatalAbort
      | none =>
        match getScopeValueN P env totalFrameSize n slot pool1 with
        | .fatalAbort => .fatalAbort
        | .outOfFuel => .outOfFuel
        | .ok (pool2, lockSV, second2) =>
          if second2 = some lockSV then
            match lockSV with
            | SV.regLoc lt num => .ok (pool2, (ownerSV, SV.regLoc lt num, eliminated))
            | SV.stkLoc lt off => .ok (pool2, (ownerSV, SV.stkLoc lt off, eliminated))
            | _ => .fatalAbort
          else .fatalAbort
  | _ => .fatalAbort

/-- The values loop of `CodeInstaller::record_scope`, with the explicit
index `i` that the double-width skip advances past the consumed
`Value.ILLEGAL` slot: values at indices below `numLocals` go to the locals,
below `numLocals + numStack` to the expression stack, and the remainder are
monitors.  When a value produced a second (continuation) scope value, the
next slot is consumed and asserted (fatally) to be `Value.ILLEGAL`. -/
def walkFrameValuesN (P : Platform) (env : VObjEnv) (totalFrameSize : Int)
    (n : Nat) (localCount expressionCount : Nat) :
    List GValue → Nat → Pool →
      RRes (Pool × List SV × List SV × List (SV × SV × Bool))
  | [], _, pool => .ok (pool, [], [], [])
  | v :: rest, i, pool =>
    if i < localCount then
      match getScopeValueN P env totalFrameSize n v pool with
      | .fatalAbort => .fatalAbort
      | .outOfFuel => .outOfFuel
      | .ok (pool1, first, second) =>
        match second with
        | none =>
          match walkFrameValuesN P env totalFrameSize n localCount
              expressionCount rest (i + 1) pool1 with
          | .fatalAbort => .fatalAbort
          | .outOfFuel => .outOfFuel
          | .ok (pool2, locals, exprs, mons) =>
            .ok (pool2, first :: locals, exprs, mons)
        | some s =>
          match rest with
          | [] => .fatalAbort
          | w :: rest2 =>
            if w = GValue.illegalVal then
              match walkFrameValuesN P env totalFrameSize n localCount
                  expressionCount rest2 (i + 2) pool1 with
              | .fatalAbort => .fatalAbort
              | .outOfFuel => .outOfFuel
              | .ok (pool2, locals, exprs, mons) =>
                .ok (pool2, s :: first :: locals, exprs, mons)
            else .fatalAbort
    else if i < localCount + expressionCount then
      match getScopeValueN P env totalFrameSize n v pool with
      | .fatalAbort => .fatalAbort
      | .outOfFuel => .outOfFuel
      | .ok (pool1, first, second) =>
        match second with
        | none =>
          match walkFrameValuesN P env totalFrameSize n localCount
              expressionCount rest (i + 1) pool1 with
          | .fatalAbort => .fatalAbort
          | .outOfFuel => .outOfFuel
          | .ok (pool2, locals, exprs, mons) =>
            .ok (pool2, locals, first :: exprs, mons)
        | some s =>
          match rest with
          | [] => .fatalAbort
          | w :: rest2 =>
            if w = GValue.illegalVal then
              match walkFrameValuesN P env totalFrameSize n localCount
                  expressionCount rest2 (i + 2) pool1 with
              | .fatalAbort => .fatalAbort
              | .outOfFuel => .outOfFuel
              | .ok (pool2, locals, exprs, mons) =>
                .ok (pool2, locals, s :: first :: exprs, mons)
            else .fatalAbort
    else
      match getMonitorValueN P env totalFrameSize n v pool with
      | .fatalAbort => .fatalAbort
      | .outOfFuel => .outOfFuel
      | .ok (pool1, mon) =>
        match walkFrameValuesN P env totalFrameSize n localCount
            expressionCount rest (i + 1) pool1 with
        | .fatalAbort => .fatalAbort
        | .outOfFuel => .outOfFuel
        | .ok (pool2, locals, exprs, mons) =>
          .ok (pool2, locals, exprs, mon :: mons)
termination_by l i pool => l.length

/-- The syntactic double-width criterion: exactly the values for which
`get_scope_value` sets its `second` out-parameter on success. -/
def isDoubleWidth (P : Platform) : GValue → Bool
  | GValue.registerValue number type reference =>
    if P.isGeneralPurposeReg number then type == BType.tLong && !reference
    else type == BType.tDouble
  | GValue.stackSlot _ _ type reference =>
    type == BType.tDouble || (type == BType.tLong && !reference)
  | GValue.primConst type _ => type == BType.tLong || type == BType.tDouble
  | _ => false

/-- The claim's well-formedness of a flattened values sequence: every
double-width value is immediately followed by the explicit `Value.ILLEGAL`
placeholder, which is consumed together with it. -/
def okSeq (P : Platform) : List GValue → Bool
  | [] => true
  | v :: rest =>
    if isDoubleWidth P v then
      match rest with
      | GValue.illegalVal :: rest2 => okSeq P rest2
      | _ => false
    else okSeq P rest
termination_by l => l.length

/-- Whether a value contains no virtual-object reference (resolution of such
values never consumes fuel). -/
def vobjFree : GValue → Bool
  | GValue.vobj _ => false
  | GValue.monitorValue owner slot _ => vobjFree owner && vobjFree slot
  | _ => true

/-- One virtual object reaching a pool id through the environment's field
edges (the debug-info graph's reference structure). -/
inductive Reaches (env : VObjEnv) : GValue → Nat → Prop
  | self (id : Nat) : Reaches env (GValue.vobj id) id
  | field (id : Nat) (desc : VObjDesc) (v : GValue) (j : Nat) :
      env.lookup id = some desc → v ∈ desc.values → Reaches env v j →
      Reaches env (GValue.vobj id) j

/-- The sequence of `get_scope_value` calls `record_scope` makes for one
frame's root values, threading the shared `objects` pool (the slot
bookkeeping of the loop does not touch the pool, so the field loop with the
long-array flag off performs exactly these calls). -/
def resolveValues (P : Platform) (env : VObjEnv) (totalFrameSize : Int)
    (n : Nat) (roots : List GValue) (pool : Pool) : RRes (Pool × List SV) :=
  resolveFieldsN P env totalFrameSize n false roots pool

/-- The number of environment ids not yet registered in the pool: an upper
bound on the registrations (and hence the fuel) resolution can consume. -/
def diffCard (env : VObjEnv) (pool : Pool) : Nat :=
  (env.ids.toFinset \ (poolIds pool).toFinset).card

/-- A pool id is closed when all of its virtual-object field references are
registered. -/
def ClosedIds (env : VObjEnv) (ids : List Nat) (j : Nat) : Prop :=
  ∀ desc, env.lookup j = some desc → ∀ k, GValue.vobj k ∈ desc.values → k ∈ ids

/-- The pool-evolution invariant of one resolution step over sources
`srcs`: the id list grows by appending; freedom from duplicates is
preserved; every new id is reachable from a source; every new id is closed
in the final pool; and every source that is itself a virtual-object
reference ends up registered. -/
structure StepInv (env : VObjEnv) (pool pool2 : Pool) (srcs : List GValue) : Prop where
  grows : ∃ newIds, poolIds pool2 = poolIds pool ++ newIds
  nodup : (poolIds pool).Nodup → (poolIds pool2).Nodup
  sound : ∀ j ∈ poolIds pool2, j ∈ poolIds pool ∨ ∃ v ∈ srcs, Reaches env v j
  closedNew : ∀ j ∈ poolIds pool2, j ∉ poolIds pool →
    ClosedIds env (poolIds pool2) j
  refs : ∀ k, GValue.vobj k ∈ srcs → k ∈ poolIds pool2

/-! ## Theorems for claims C4, C5, C6, C7, C8 -/

/-- C4: the pre-computed `_constants_size` equals the raw data-section length
rounded up to the constant section's alignment (and zero when the data section
is empty); it is a multiple of the alignment not smaller than the raw length;
and the post-registration boundary `guarantee` passes exactly when the blob's
content/code boundary equals `_constants_size`, aborting fatally on any
mismatch. -/
theorem c4_constants_size_invariant (len alignment boundary : Nat)
    (hal : 0 < alignment) :
    computeConstantsSize len alignment =
        (if len = 0 then 0 else specRoundUp len alignment) ∧
      computeConstantsSize len alignment % alignment = 0 ∧
      len ≤ computeConstantsSize len alignment ∧
      (installConstantsGuarantee boundary (computeConstantsSize len alignment) =
          PostCheck.passed ↔
        boundary = computeConstantsSize len alignment) := by
  have hmod := Nat.div_add_mod (len + alignment - 1) alignment
  rw [Nat.mul_comm] at hmod
  have hlt : (len + alignment - 1) % alignment < alignment :=
    Nat.mod_lt _ hal
  have hspec : alignSizeUp len alignment = specRoundUp len alignment := by
    unfold alignSizeUp specRoundUp
    exact Nat.sub_eq_of_eq_add hmod.symm
  refine ⟨?_, ?_, ?_, ?_⟩
  · by_cases h : len = 0
    · simp [computeConstantsSize, h]
    · have hpos : 0 < len := Nat.pos_of_ne_zero h
      simp only [computeConstantsSize, if_pos hpos, if_neg h, hspec]
  · by_cases h : len = 0
    · simp [computeConstantsSize, h]
    · have hpos : 0 < len := Nat.pos_of_ne_zero h
      simp only [computeConstantsSize, if_pos hpos, hspec]
      unfold specRoundUp
      exact Nat.mul_mod_left _ _
  · by_cases h : len = 0
    · simp [computeConstantsSize, h]
    · have hpos : 0 < len := Nat.pos_of_ne_zero h
      simp only [computeConstantsSize, if_pos hpos]
      unfold alignSizeUp
      omega
  · by_cases hb : boundary = computeConstantsSize len alignment <;>
      simp [installConstantsGuarantee, hb]

theorem c4_constants_size_invariant_witness :
    0 < 8 ∧
      (computeConstantsSize 5 8 = (if (5 : Nat) = 0 then 0 else specRoundUp 5 8) ∧
        computeConstantsSize 5 8 % 8 = 0 ∧
        5 ≤ computeConstantsSize 5 8 ∧
        (installConstantsGuarantee 8 (computeConstantsSize 5 8) = PostCheck.passed ↔
          8 = computeConstantsSize 5 8)) :=
  ⟨by decide, c4_constants_size_invariant 5 8 8 (by decide)⟩

/-- C5: for every slot index consulted under the 3-bits-per-slot encoding, an
is-reference bit with no narrow bits yields exactly one full-reference mark at
the mapped location; an is-reference bit with narrow bits yields exactly the
corresponding narrow-reference marks (at the slot and/or its second half); and
a clear is-reference bit yields a single plain-value mark and no reference
mark at all. -/
theorem c5_reference_map_bits (words : List Nat) (idx reg : Nat) :
    (isBitSet words (3 * idx) = true → isBitSet words (3 * idx + 1) = false →
      isBitSet words (3 * idx + 2) = false →
      setVmregOops reg words idx = [OopMark.oopAt reg]) ∧
    (isBitSet words (3 * idx) = true → isBitSet words (3 * idx + 1) = true →
      isBitSet words (3 * idx + 2) = false →
      setVmregOops reg words idx = [OopMark.narrowoopAt reg]) ∧
    (isBitSet words (3 * idx) = true → isBitSet words (3 * idx + 1) = false →
      isBitSet words (3 * idx + 2) = true →
      setVmregOops reg words idx = [OopMark.narrowoopAt (reg + 1)]) ∧
    (isBitSet words (3 * idx) = true → isBitSet words (3 * idx + 1) = true →
      isBitSet words (3 * idx + 2) = true →
      setVmregOops reg words idx =
        [OopMark.narrowoopAt reg, OopMark.narrowoopAt (reg + 1)]) ∧
    (isBitSet words (3 * idx) = false →
      setVmregOops reg words idx = [OopMark.valueAt reg] ∧
      ∀ m ∈ setVmregOops reg words idx, m.isReferenceMark = false) := by
  refine ⟨?_, ?_, ?_, ?_, ?_⟩
  · intro h1 h2 h3; simp [setVmregOops, h1, h2, h3]
  · intro h1 h2 h3; simp [setVmregOops, h1, h2, h3]
  · intro h1 h2 h3; simp [setVmregOops, h1, h2, h3]
  · intro h1 h2 h3; simp [setVmregOops, h1, h2, h3]
  · intro h1
    constructor
    · simp [setVmregOops, h1]
    · intro m hm
      simp [setVmregOops, h1] at hm
      simp [hm, OopMark.isReferenceMark]

theorem c5_reference_map_bits_witness :
    setVmregOops 4 [1] 0 = [OopMark.oopAt 4] :=
  (c5_reference_map_bits [1] 0 4).1 (by decide) (by decide) (by decide)

/-- C6 counterexample: at an `invokevirtual` bytecode with a frame present, a
non-synchronization bci and `duringCall` false, `record_scope` records
reexecute = true while the claimed rule ("false by default for call
bytecodes") gives false: the `bytecode_should_reexecute` result is discarded
by the unconditional `duringCall` override. -/
theorem c6_reexecute_counterexample :
    computeReexecute true false Bytecode.invokevirtual false = true ∧
      claimedReexecute true false Bytecode.invokevirtual false = false ∧
      computeReexecute true false Bytecode.invokevirtual false ≠
        claimedReexecute true false Bytecode.invokevirtual false := by
  decide

/-- C6 amended: `bytecode_should_reexecute` is indeed false exactly for the
five invoke bytecodes, but `record_scope` discards its result: for every
recorded frame the reexecute bit equals (frame present ∧ bci is not the
synchronization-entry marker ∧ not during a call), independent of the
bytecode. -/
theorem c6_reexecute_amended (hasFrame bciIsSyncEntry duringCall : Bool)
    (code : Bytecode) :
    computeReexecute hasFrame bciIsSyncEntry code duringCall =
        (hasFrame && !bciIsSyncEntry && !duringCall) ∧
      bytecodeShouldReexecute code = !isInvokeBytecode code := by
  constructor
  · cases hasFrame <;> cases bciIsSyncEntry <;> cases duringCall <;> rfl
  · cases code <;> rfl

/-- C7 counterexample: two handlers sharing pc-offset 5 produce two
single-entry subtables (two header entries for pc 5), not one subtable with a
shared header followed by both entries as the claim states. -/
theorem c7_subtable_counterexample :
    processExceptionHandlers [⟨5, 10⟩, ⟨5, 20⟩] =
        [⟨1, 5, 0⟩, ⟨-1, 10, 0⟩, ⟨1, 5, 0⟩, ⟨-1, 20, 0⟩] ∧
      claimedGroupedTable [⟨5, 10⟩, ⟨5, 20⟩] =
        [⟨2, 5, 0⟩, ⟨-1, 10, 0⟩, ⟨-1, 20, 0⟩] ∧
      processExceptionHandlers [⟨5, 10⟩, ⟨5, 20⟩] ≠
        claimedGroupedTable [⟨5, 10⟩, ⟨5, 20⟩] ∧
      (processExceptionHandlers [⟨5, 10⟩, ⟨5, 20⟩]).countP
          (fun e => e.bciOrLen == 1 && e.pco == 5) = 2 := by
  decide

/-- C7 amended: in the authoritative (Graal) implementation each handler gets
its own subtable — one header entry `(1, pcOffset, 0)` followed by exactly its
single handler entry — and handlers sharing a pc-offset are not merged. -/
theorem c7_subtable_amended (handlers : List ExceptionHandlerSite) :
    processExceptionHandlers handlers =
      handlers.flatMap
        (fun exc => [⟨1, exc.pcOffset, 0⟩, ⟨-1, exc.handlerPos, 0⟩]) := by
  have key : ∀ (hs : List ExceptionHandlerSite) (acc : List HandlerTableEntry),
      hs.foldl
          (fun table exc =>
            table ++ [⟨1, exc.pcOffset, 0⟩, ⟨-1, exc.handlerPos, 0⟩]) acc =
        acc ++ hs.flatMap
          (fun exc => [⟨1, exc.pcOffset, 0⟩, ⟨-1, exc.handlerPos, 0⟩]) := by
    intro hs
    induction hs with
    | nil => intro acc; simp
    | cons h t ih => intro acc; simp [ih]
  simpa using key handlers []

/-- C8: installation returns the recoverable `cache_full` result when no
scratch buffer blob is available, and the recoverable `code_too_large` result
when the descriptor's code size exceeds the instruction-section capacity; in
the latter case the capacity check precedes the copy, so the instruction
section is left untouched (all-or-nothing), and both failures are ordinary
typed return values rather than fatal aborts. -/
theorem c8_recoverable_failures (capacity codeSize : Nat)
    (codeBytes sect0 : List Nat) :
    installLayout none codeSize codeBytes sect0 =
        (CodeInstallResult.cacheFull, sect0) ∧
      (capacity < codeSize →
        installLayout (some capacity) codeSize codeBytes sect0 =
          (CodeInstallResult.codeTooLarge, sect0)) ∧
      (codeSize ≤ capacity →
        installLayout (some capacity) codeSize codeBytes sect0 =
          (CodeInstallResult.installOk, codeBytes)) := by
  refine ⟨rfl, ?_, ?_⟩
  · intro h
    have h' : ¬ codeSize ≤ capacity := by omega
    simp [installLayout, initializeBufferCopy, h']
  · intro h
    simp [installLayout, initializeBufferCopy, h]

theorem c8_recoverable_failures_witness :
    installLayout (some 4) 10 [1, 2] [9] = (CodeInstallResult.codeTooLarge, [9]) ∧
      installLayout (some 16) 10 [1, 2] [9] =
        (CodeInstallResult.installOk, [1, 2]) :=
  ⟨(c8_recoverable_failures 4 10 [1, 2] [9]).2.1 (by decide),
    (c8_recoverable_failures 16 10 [1, 2] [9]).2.2 (by decide)⟩

/-! ## Site Processor lemmas -/

theorem pdRelocateJavaMethod_ok_shape {st : InstallerState} {p : Nat}
    {evs : List InstallEvent} (h : pdRelocateJavaMethod st p = .ok evs) :
    ∀ e ∈ evs, e.isDebugRecorderEvent = false ∧ e.isStubEvent = false := by
  unfold pdRelocateJavaMethod at h
  split_ifs at h
  · injection h with h; subst h; intro e he; exact absurd he (by simp)
  · injection h with h; subst h; intro e he
    simp only [List.mem_singleton] at he; subst he; exact ⟨rfl, rfl⟩
  · injection h with h; subst h; intro e he
    simp only [List.mem_singleton] at he; subst he; exact ⟨rfl, rfl⟩
  · injection h with h; subst h; intro e he
    simp only [List.mem_singleton] at he; subst he; exact ⟨rfl, rfl⟩

theorem callDebugEvents_no_stub (di : Option DebugInfoDesc) (no : Nat) :
    ∀ e ∈ callDebugEvents di no, e.isStubEvent = false := by
  intro e he
  cases di with
  | none => exact absurd he (by simp [callDebugEvents])
  | some d =>
    simp only [callDebugEvents] at he
    cases hf : d.hasFrame <;> rw [hf] at he
    · simp at he
      subst he; rfl
    · simp at he
      rcases he with rfl | rfl <;> rfl

theorem callEndEvents_no_stub (di : Option DebugInfoDesc) (no : Nat) :
    ∀ e ∈ callEndEvents di no, e.isStubEvent = false := by
  intro e he
  cases di with
  | none => exact absurd he (by simp [callEndEvents])
  | some d =>
    simp only [callEndEvents, List.mem_singleton] at he
    subst he; rfl

theorem siteCall_ok_state {a b : Nat} {st : InstallerState} {s : CallSite}
    {st' : InstallerState} {evs : List InstallEvent}
    (h : siteCall a b st s = .ok (st', evs)) :
    st' = { st with nextCallType := INVOKE_INVALID } := by
  unfold siteCall at h
  split at h
  · exact Except.noConfusion h
  · split at h
    · exact Except.noConfusion h
    · split at h
      · injection h with h
        injection h with h1 h2
        exact h1.symm
      · split at h
        · exact Except.noConfusion h
        · split at h
          · exact Except.noConfusion h
          · injection h with h
            injection h with h1 h2
            exact h1.symm

theorem siteCall_stub_le {a b : Nat} {st : InstallerState} {s : CallSite}
    {st' : InstallerState} {evs : List InstallEvent}
    (h : siteCall a b st s = .ok (st', evs)) :
    countStubEvents evs ≤ stubCredit st := by
  have z1 : ∀ no, List.countP InstallEvent.isStubEvent
      (callDebugEvents s.debugInfo no) = 0 := fun no =>
    List.countP_eq_zero.mpr
      (by intro e he; simpa using callDebugEvents_no_stub s.debugInfo no e he)
  have z2 : ∀ no, List.countP InstallEvent.isStubEvent
      (callEndEvents s.debugInfo no) = 0 := fun no =>
    List.countP_eq_zero.mpr
      (by intro e he; simpa using callEndEvents_no_stub s.debugInfo no e he)
  unfold siteCall at h
  split at h
  · exact Except.noConfusion h
  · split at h
    · exact Except.noConfusion h
    · split at h
      · injection h with h
        injection h with h1 h2
        subst h2
        unfold countStubEvents
        rw [List.countP_append, List.countP_append, z1, z2]
        simp [InstallEvent.isStubEvent]
      · split at h
        · exact Except.noConfusion h
        · split at h
          · exact Except.noConfusion h
          · rename_i jevs hj
            injection h with h
            injection h with h1 h2
            subst h2
            have zj : List.countP InstallEvent.isStubEvent jevs = 0 :=
              List.countP_eq_zero.mpr (by
                intro e he
                simpa using (pdRelocateJavaMethod_ok_shape hj e he).2)
            have z4 : List.countP InstallEvent.isStubEvent
                (if st.nextCallType = INVOKESTATIC ∨
                    st.nextCallType = INVOKESPECIAL then
                  [InstallEvent.emitStaticCallStub (st.instStart + s.pcOffset)]
                else []) = stubCredit st := by
              unfold stubCredit
              split <;> rfl
            unfold countStubEvents
            rw [List.countP_append, List.countP_append, List.countP_append,
              z1, z2, zj, z4]
            omega

theorem siteSafepoint_ok_state {st : InstallerState} {s : InfopointSite}
    {st' : InstallerState} {evs : List InstallEvent}
    (h : siteSafepoint st s = .ok (st', evs)) :
    st' = st ∧ countStubEvents evs = 0 := by
  unfold siteSafepoint at h
  split at h
  · exact Except.noConfusion h
  · injection h with h
    injection h with h1 h2
    subst h2
    refine ⟨h1.symm, ?_⟩
    unfold countStubEvents
    rw [List.countP_eq_zero]
    intro e he
    simp at he
    rcases he with rfl | ⟨_, rfl⟩ | rfl <;> simp [InstallEvent.isStubEvent]

theorem siteInfopoint_ok_state {st : InstallerState} {s : InfopointSite}
    {st' : InstallerState} {evs : List InstallEvent}
    (h : siteInfopoint st s = .ok (st', evs)) :
    st' = st ∧ countStubEvents evs = 0 := by
  unfold siteInfopoint at h
  split at h
  · exact Except.noConfusion h
  · injection h with h
    injection h with h1 h2
    subst h2
    refine ⟨h1.symm, ?_⟩
    unfold countStubEvents
    rw [List.countP_eq_zero]
    intro e he
    simp at he
    rcases he with rfl | ⟨_, rfl⟩ | rfl <;> simp [InstallEvent.isStubEvent]

theorem siteDataPatch_ok_state {cs : Int} {st : InstallerState}
    {s : DataPatchSite} {st' : InstallerState} {evs : List InstallEvent}
    (h : siteDataPatch cs st s = .ok (st', evs)) :
    st' = st ∧ evs = [] := by
  unfold siteDataPatch at h
  split at h
  · injection h with h; injection h with h1 h2; exact ⟨h1.symm, h2.symm⟩
  · injection h with h; injection h with h1 h2; exact ⟨h1.symm, h2.symm⟩
  · exact Except.noConfusion h
  · split at h
    · injection h with h; injection h with h1 h2; exact ⟨h1.symm, h2.symm⟩
    · exact Except.noConfusion h
  · exact Except.noConfusion h

theorem siteMark_ok_cases {st : InstallerState} {s : MarkSite}
    {st' : InstallerState} {evs : List InstallEvent}
    (h : siteMark st s = .ok (st', evs)) :
    countStubEvents evs = 0 ∧
      (st' = st ∨
        ∃ id, s.id = some id ∧
          st' = { st with nextCallType := id, invokeMarkPc := st.instStart + s.pcOffset } ∧
          (id = INVOKEVIRTUAL ∨ id = INVOKEINTERFACE ∨ id = INLINE_INVOKE ∨
            id = INVOKESTATIC ∨ id = INVOKESPECIAL)) := by
  unfold siteMark at h
  split at h
  · injection h with h; injection h with h1 h2
    exact ⟨by rw [← h2]; rfl, Or.inl h1.symm⟩
  · rename_i id hid
    split_ifs at h with h1 h2 h3
    · injection h with h; injection h with ha hb
      subst hb
      exact ⟨by simp [countStubEvents, InstallEvent.isStubEvent], Or.inl ha.symm⟩
    · injection h with h; injection h with ha hb
      subst hb
      refine ⟨rfl, Or.inr ⟨id, hid, ha.symm, ?_⟩⟩
      tauto
    · injection h with h; injection h with ha hb
      subst hb
      exact ⟨by simp [countStubEvents, InstallEvent.isStubEvent], Or.inl ha.symm⟩

theorem processSite_stub_bound {a b : Nat} {cs : Int} {st : InstallerState}
    {site : Site} {st' : InstallerState} {evs : List InstallEvent}
    (h : processSite a b cs st site = .ok (st', evs)) :
    countStubEvents evs + stubCredit st' ≤
      estimateStubEntries [site] + stubCredit st := by
  cases site with
  | call s =>
    simp only [processSite] at h
    have h1 := siteCall_ok_state h
    have h2 := siteCall_stub_le h
    have h3 : stubCredit st' = 0 := by
      rw [h1]; rfl
    rw [h3]
    simp only [estimateStubEntries]
    omega
  | infopoint s =>
    simp only [processSite] at h
    split at h
    · obtain ⟨rfl, hz⟩ := siteSafepoint_ok_state h
      simp only [estimateStubEntries]
      omega
    · obtain ⟨rfl, hz⟩ := siteInfopoint_ok_state h
      simp only [estimateStubEntries]
      omega
  | dataPatch s =>
    simp only [processSite] at h
    obtain ⟨rfl, rfl⟩ := siteDataPatch_ok_state h
    simp [estimateStubEntries, countStubEvents]
  | mark m =>
    simp only [processSite] at h
    obtain ⟨hz, hcase⟩ := siteMark_ok_cases h
    rw [hz]
    rcases hcase with rfl | ⟨id, hid, rfl, hinv⟩
    · simp only [estimateStubEntries]
      omega
    · have hcredit : stubCredit { st with nextCallType := id, invokeMarkPc := st.instStart + m.pcOffset } =
          (if id = INVOKESTATIC ∨ id = INVOKESPECIAL then 1 else 0) := by
        unfold stubCredit
        rfl
      have hest : estimateStubEntries [Site.mark m] =
          (if id = INVOKESTATIC ∨ id = INVOKESPECIAL then 1 else 0) := by
        simp [estimateStubEntries, hid]
      rw [hcredit, hest]
      omega

theorem estimateStubEntries_cons (s : Site) (rest : List Site) :
    estimateStubEntries (s :: rest) =
      estimateStubEntries [s] + estimateStubEntries rest := by
  cases s <;> simp [estimateStubEntries]

theorem processSites_cons_ok {a b : Nat} {cs : Int} {st : InstallerState}
    {s : Site} {rest : List Site} {st' : InstallerState}
    {evs : List InstallEvent}
    (h : processSites a b cs st (s :: rest) = .ok (st', evs)) :
    ∃ st1 evs1 evs2, processSite a b cs st s = .ok (st1, evs1) ∧
      processSites a b cs st1 rest = .ok (st', evs2) ∧ evs = evs1 ++ evs2 := by
  unfold processSites at h
  split at h
  · exact Except.noConfusion h
  · split at h
    · exact Except.noConfusion h
    · injection h with h
      injection h with h1 h2
      subst h1
      exact ⟨_, _, _, by assumption, by assumption, h2.symm⟩

theorem processSites_stub_bound {a b : Nat} {cs : Int}
    {sites : List Site} {st st' : InstallerState} {evs : List InstallEvent}
    (h : processSites a b cs st sites = .ok (st', evs)) :
    countStubEvents evs + stubCredit st' ≤
      estimateStubEntries sites + stubCredit st := by
  induction sites generalizing st evs with
  | nil =>
    unfold processSites at h
    injection h with h
    injection h with h1 h2
    subst h1; subst h2
    simp [countStubEvents, estimateStubEntries]
  | cons s rest ih =>
    obtain ⟨st1, evs1, evs2, hp1, hp2, rfl⟩ := processSites_cons_ok h
    have b1 := processSite_stub_bound hp1
    have b2 := ih hp2
    have hc : countStubEvents (evs1 ++ evs2) =
        countStubEvents evs1 + countStubEvents evs2 := by
      unfold countStubEvents
      exact List.countP_append _ _ _
    rw [hc, estimateStubEntries_cons]
    omega

/-! ## Theorems for claims C1, C2, C10 -/

/-- C1: the Site Processor's pending call-site kind starts out
`INVOKE_INVALID` after `initialize_fields`; a successfully processed site
either leaves it unchanged, resets it to invalid, or is an invoke-kind Mark
site that sets it to its own id; every successfully processed Call site
leaves it `INVOKE_INVALID` regardless of target kind; a Call site targeting a
Java method while the pending kind is invalid fails fatally; and a
`Mark(INVOKEVIRTUAL)` immediately followed by a `Call(method)` succeeds and
produces a virtual-call relocation whose argument is the marking
instruction's address. -/
theorem c1_pending_call_type_state_machine
    (callInstSize farCallInstSize : Nat) (constantsSize : Int)
    (instStart : Nat) (st : InstallerState) :
    (initialInstallerState instStart).nextCallType = INVOKE_INVALID ∧
      (∀ site st' evs,
        processSite callInstSize farCallInstSize constantsSize st site =
            .ok (st', evs) →
        st'.nextCallType = st.nextCallType ∨
          st'.nextCallType = INVOKE_INVALID ∨
          ∃ m, site = Site.mark m ∧ m.id = some st'.nextCallType ∧
            (st'.nextCallType = INVOKEVIRTUAL ∨
              st'.nextCallType = INVOKEINTERFACE ∨
              st'.nextCallType = INLINE_INVOKE ∨
              st'.nextCallType = INVOKESTATIC ∨
              st'.nextCallType = INVOKESPECIAL)) ∧
      (∀ s st' evs,
        siteCall callInstSize farCallInstSize st s = .ok (st', evs) →
        st'.nextCallType = INVOKE_INVALID) ∧
      (∀ (s : CallSite) (mid : Nat), st.nextCallType = INVOKE_INVALID →
        s.target = some (CallTargetKind.javaMethod mid) →
        siteCall callInstSize farCallInstSize st s = .error ()) ∧
      (∀ (m : MarkSite) (c : CallSite) (mid : Nat) (di : DebugInfoDesc),
        m.id = some INVOKEVIRTUAL →
        c.target = some (CallTargetKind.javaMethod mid) →
        c.debugInfo = some di →
        c.instKind ≠ InstKind.otherInst →
        ∃ st' evs,
          processSites callInstSize farCallInstSize constantsSize st
              [Site.mark m, Site.call c] = .ok (st', evs) ∧
          InstallEvent.relocateAt (st.instStart + c.pcOffset)
              (RelocKind.virtualCallReloc (st.instStart + m.pcOffset)) ∈ evs ∧
          st'.nextCallType = INVOKE_INVALID) := by
  refine ⟨rfl, ?_, ?_, ?_, ?_⟩
  · intro site st' evs h
    cases site with
    | call s =>
      simp only [processSite] at h
      right; left
      rw [siteCall_ok_state h]
    | infopoint s =>
      simp only [processSite] at h
      split at h
      · left; rw [(siteSafepoint_ok_state h).1]
      · left; rw [(siteInfopoint_ok_state h).1]
    | dataPatch s =>
      simp only [processSite] at h
      left; rw [(siteDataPatch_ok_state h).1]
    | mark m =>
      simp only [processSite] at h
      rcases (siteMark_ok_cases h).2 with rfl | ⟨id, hid, rfl, hinv⟩
      · left; rfl
      · right; right
        exact ⟨m, rfl, hid, hinv⟩
  · intro s st' evs h
    rw [siteCall_ok_state h]
  · intro s mid hinv htgt
    have hreloc : pdRelocateJavaMethod st s.pcOffset = .error () := by
      unfold pdRelocateJavaMethod
      rw [hinv]
      rw [if_neg (by decide), if_neg (by decide), if_neg (by decide),
        if_neg (by decide)]
    unfold siteCall
    rw [htgt]
    cases hik : s.instKind <;>
      simp only [pdNextOffset] <;>
      cases hdi : s.debugInfo <;>
      simp [hreloc]
  · intro m c mid di hm htgt hdi hik
    have hmark : siteMark st m =
        .ok ({ st with nextCallType := INVOKEVIRTUAL, invokeMarkPc := st.instStart + m.pcOffset }, []) := by
      simp only [siteMark, hm]
      rfl
    have hrj : pdRelocateJavaMethod
        { st with nextCallType := INVOKEVIRTUAL, invokeMarkPc := st.instStart + m.pcOffset } c.pcOffset =
        .ok [InstallEvent.relocateAt (st.instStart + c.pcOffset)
          (RelocKind.virtualCallReloc (st.instStart + m.pcOffset))] := by
      rfl
    obtain ⟨no, hno⟩ : ∃ no,
        pdNextOffset callInstSize farCallInstSize c.instKind c.pcOffset =
          .ok no := by
      cases hik2 : c.instKind
      · exact ⟨c.pcOffset + callInstSize, rfl⟩
      · exact ⟨c.pcOffset + farCallInstSize, rfl⟩
      · exact absurd hik2 hik
    have hcall : siteCall callInstSize farCallInstSize
        { st with nextCallType := INVOKEVIRTUAL, invokeMarkPc := st.instStart + m.pcOffset } c =
        .ok ({ st with nextCallType := INVOKE_INVALID, invokeMarkPc := st.instStart + m.pcOffset },
          callDebugEvents c.debugInfo no ++
            ([InstallEvent.relocateAt (st.instStart + c.pcOffset)
              (RelocKind.virtualCallReloc (st.instStart + m.pcOffset))] ++ []) ++
            callEndEvents c.debugInfo no) := by
      simp only [siteCall, htgt, hno, hdi, hrj]
      rfl
    have hproc : processSites callInstSize farCallInstSize constantsSize st
        [Site.mark m, Site.call c] =
        .ok ({ st with nextCallType := INVOKE_INVALID, invokeMarkPc := st.instStart + m.pcOffset },
          [] ++ ((callDebugEvents c.debugInfo no ++
              ([InstallEvent.relocateAt (st.instStart + c.pcOffset)
                (RelocKind.virtualCallReloc (st.instStart + m.pcOffset))] ++ []) ++
              callEndEvents c.debugInfo no) ++ [])) := by
      simp only [processSites, processSite, hmark, hcall]
    refine ⟨_, _, hproc, ?_, rfl⟩
    rw [hdi]
    simp [callDebugEvents, callEndEvents]

theorem c1_pending_call_type_state_machine_witness :
    ∃ st' evs,
      processSites 8 16 0 (initialInstallerState 100)
          [Site.mark ⟨0, some INVOKEVIRTUAL⟩,
            Site.call ⟨4, some (CallTargetKind.javaMethod 1), some ⟨true⟩,
              InstKind.callOrJump⟩] = .ok (st', evs) ∧
        InstallEvent.relocateAt ((initialInstallerState 100).instStart + 4)
            (RelocKind.virtualCallReloc
              ((initialInstallerState 100).instStart + 0)) ∈ evs ∧
        st'.nextCallType = INVOKE_INVALID :=
  (c1_pending_call_type_state_machine 8 16 0 100
    (initialInstallerState 100)).2.2.2.2 ⟨0, some INVOKEVIRTUAL⟩
    ⟨4, some (CallTargetKind.javaMethod 1), some ⟨true⟩, InstKind.callOrJump⟩
    1 ⟨true⟩ rfl rfl rfl (by decide)

theorem pdNextOffset_lt {a b : Nat} {k : InstKind} {p no : Nat}
    (ha : 0 < a) (hb : 0 < b) (h : pdNextOffset a b k p = .ok no) :
    p < no := by
  cases k <;> simp [pdNextOffset] at h <;> omega

/-- C2: for every Call site with attached debug info that is successfully
processed, the reference map (safepoint) is recorded, the debug scope is
recorded when a bytecode frame is present, and the safepoint is ended, all at
the offset of the next instruction after the call (which is strictly greater
than the Call site's own pcOffset); no safepoint, scope or safepoint-end
recording of this site happens at any other offset. -/
theorem mem_callDebugEvents {di : DebugInfoDesc} {no : Nat} {e : InstallEvent}
    (he : e ∈ callDebugEvents (some di) no) :
    e = InstallEvent.addSafepoint no ∨ e = InstallEvent.recordScopeAt no := by
  simp only [callDebugEvents] at he
  cases hf : di.hasFrame <;> rw [hf] at he <;> simp at he
  · exact Or.inl he
  · exact he

theorem mem_callEndEvents {di : DebugInfoDesc} {no : Nat} {e : InstallEvent}
    (he : e ∈ callEndEvents (some di) no) :
    e = InstallEvent.endSafepoint no := by
  simp [callEndEvents] at he
  exact he

theorem mem_stub_ite {c : Prop} [Decidable c] {x : Nat} {e : InstallEvent}
    (he : e ∈ (if c then [InstallEvent.emitStaticCallStub x] else [])) :
    e = InstallEvent.emitStaticCallStub x := by
  split at he
  · simpa using he
  · exact absurd he (by simp)

/-- C2: for every Call site with attached debug info that is successfully
processed, the reference map (safepoint) is recorded, the debug scope is
recorded when a bytecode frame is present, and the safepoint is ended, all at
the offset of the next instruction after the call (which is strictly greater
than the Call site's own pcOffset); no safepoint, scope or safepoint-end
recording of this site happens at any other offset. -/
theorem c2_call_debug_at_next_offset
    (callInstSize farCallInstSize : Nat) (st : InstallerState) (s : CallSite)
    (di : DebugInfoDesc) (st' : InstallerState) (evs : List InstallEvent)
    (hc : 0 < callInstSize) (hf : 0 < farCallInstSize)
    (hdi : s.debugInfo = some di)
    (h : siteCall callInstSize farCallInstSize st s = .ok (st', evs)) :
    ∃ nextOff,
      pdNextOffset callInstSize farCallInstSize s.instKind s.pcOffset =
          .ok nextOff ∧
        s.pcOffset < nextOff ∧
        InstallEvent.addSafepoint nextOff ∈ evs ∧
        (di.hasFrame = true → InstallEvent.recordScopeAt nextOff ∈ evs) ∧
        InstallEvent.endSafepoint nextOff ∈ evs ∧
        (∀ o, InstallEvent.addSafepoint o ∈ evs → o = nextOff) ∧
        (∀ o, InstallEvent.recordScopeAt o ∈ evs → o = nextOff) ∧
        (∀ o, InstallEvent.endSafepoint o ∈ evs → o = nextOff) := by
  unfold siteCall at h
  split at h
  · exact Except.noConfusion h
  · split at h
    · exact Except.noConfusion h
    · rename_i tgt htgt x nextOff hno
      refine ⟨nextOff, hno, pdNextOffset_lt hc hf hno, ?_⟩
      split at h
      · injection h with h
        injection h with h1 h2
        subst h2
        rw [hdi]
        have hsplit : ∀ e, e ∈ callDebugEvents (some di) nextOff ++
            [InstallEvent.relocateAt (st.instStart + s.pcOffset)
              RelocKind.runtimeCallReloc] ++
            callEndEvents (some di) nextOff →
            e = InstallEvent.addSafepoint nextOff ∨
              e = InstallEvent.recordScopeAt nextOff ∨
              e = InstallEvent.endSafepoint nextOff ∨
              e.isDebugRecorderEvent = false := by
          intro e he
          rcases List.mem_append.mp he with he | he
          · rcases List.mem_append.mp he with he | he
            · rcases mem_callDebugEvents he with rfl | rfl
              · exact Or.inl rfl
              · exact Or.inr (Or.inl rfl)
            · simp at he; subst he
              exact Or.inr (Or.inr (Or.inr rfl))
          · rw [mem_callEndEvents he]
            exact Or.inr (Or.inr (Or.inl rfl))
        refine ⟨by simp [callDebugEvents],
          fun hfr => by simp [callDebugEvents, hfr],
          by simp [callEndEvents], ?_, ?_, ?_⟩
        · intro o ho
          rcases hsplit _ ho with he | he | he | he
          · exact InstallEvent.addSafepoint.inj he
          · exact absurd he (by simp)
          · exact absurd he (by simp)
          · exact absurd he (by simp [InstallEvent.isDebugRecorderEvent])
        · intro o ho
          rcases hsplit _ ho with he | he | he | he
          · exact absurd he (by simp)
          · exact InstallEvent.recordScopeAt.inj he
          · exact absurd he (by simp)
          · exact absurd he (by simp [InstallEvent.isDebugRecorderEvent])
        · intro o ho
          rcases hsplit _ ho with he | he | he | he
          · exact absurd he (by simp)
          · exact absurd he (by simp)
          · exact InstallEvent.endSafepoint.inj he
          · exact absurd he (by simp [InstallEvent.isDebugRecorderEvent])
      · split at h
        · exact Except.noConfusion h
        · split at h
          · exact Except.noConfusion h
          · rename_i jevs hj
            injection h with h
            injection h with h1 h2
            subst h2
            rw [hdi]
            have hjshape := pdRelocateJavaMethod_ok_shape hj
            have hsplit : ∀ e, e ∈ callDebugEvents (some di) nextOff ++
                (jevs ++
                  (if st.nextCallType = INVOKESTATIC ∨
                      st.nextCallType = INVOKESPECIAL then
                    [InstallEvent.emitStaticCallStub (st.instStart + s.pcOffset)]
                  else [])) ++
                callEndEvents (some di) nextOff →
                e = InstallEvent.addSafepoint nextOff ∨
                  e = InstallEvent.recordScopeAt nextOff ∨
                  e = InstallEvent.endSafepoint nextOff ∨
                  e.isDebugRecorderEvent = false := by
              intro e he
              rcases List.mem_append.mp he with he | he
              · rcases List.mem_append.mp he with he | he
                · rcases mem_callDebugEvents he with rfl | rfl
                  · exact Or.inl rfl
                  · exact Or.inr (Or.inl rfl)
                · rcases List.mem_append.mp he with he | he
                  · exact Or.inr (Or.inr (Or.inr (hjshape e he).1))
                  · rw [mem_stub_ite he]
                    exact Or.inr (Or.inr (Or.inr rfl))
              · rw [mem_callEndEvents he]
                exact Or.inr (Or.inr (Or.inl rfl))
            refine ⟨by simp [callDebugEvents],
              fun hfr => by simp [callDebugEvents, hfr],
              by simp [callEndEvents], ?_, ?_, ?_⟩
            · intro o ho
              rcases hsplit _ ho with he | he | he | he
              · exact InstallEvent.addSafepoint.inj he
              · exact absurd he (by simp)
              · exact absurd he (by simp)
              · exact absurd he (by simp [InstallEvent.isDebugRecorderEvent])
            · intro o ho
              rcases hsplit _ ho with he | he | he | he
              · exact absurd he (by simp)
              · exact InstallEvent.recordScopeAt.inj he
              · exact absurd he (by simp)
              · exact absurd he (by simp [InstallEvent.isDebugRecorderEvent])
            · intro o ho
              rcases hsplit _ ho with he | he | he | he
              · exact absurd he (by simp)
              · exact absurd he (by simp)
              · exact InstallEvent.endSafepoint.inj he
              · exact absurd he (by simp [InstallEvent.isDebugRecorderEvent])

theorem c2_call_debug_at_next_offset_witness :
    ∃ nextOff,
      pdNextOffset 8 16 InstKind.callOrJump 0 = .ok nextOff ∧
        0 < nextOff ∧
        InstallEvent.addSafepoint nextOff ∈
          ([InstallEvent.addSafepoint 8, InstallEvent.recordScopeAt 8,
            InstallEvent.relocateAt 100 (RelocKind.virtualCallReloc 50),
            InstallEvent.endSafepoint 8] : List InstallEvent) ∧
        ((⟨true⟩ : DebugInfoDesc).hasFrame = true →
          InstallEvent.recordScopeAt nextOff ∈
            ([InstallEvent.addSafepoint 8, InstallEvent.recordScopeAt 8,
              InstallEvent.relocateAt 100 (RelocKind.virtualCallReloc 50),
              InstallEvent.endSafepoint 8] : List InstallEvent)) ∧
        InstallEvent.endSafepoint nextOff ∈
          ([InstallEvent.addSafepoint 8, InstallEvent.recordScopeAt 8,
            InstallEvent.relocateAt 100 (RelocKind.virtualCallReloc 50),
            InstallEvent.endSafepoint 8] : List InstallEvent) ∧
        (∀ o, InstallEvent.addSafepoint o ∈
            ([InstallEvent.addSafepoint 8, InstallEvent.recordScopeAt 8,
              InstallEvent.relocateAt 100 (RelocKind.virtualCallReloc 50),
              InstallEvent.endSafepoint 8] : List InstallEvent) → o = nextOff) ∧
        (∀ o, InstallEvent.recordScopeAt o ∈
            ([InstallEvent.addSafepoint 8, InstallEvent.recordScopeAt 8,
              InstallEvent.relocateAt 100 (RelocKind.virtualCallReloc 50),
              InstallEvent.endSafepoint 8] : List InstallEvent) → o = nextOff) ∧
        (∀ o, InstallEvent.endSafepoint o ∈
            ([InstallEvent.addSafepoint 8, InstallEvent.recordScopeAt 8,
              InstallEvent.relocateAt 100 (RelocKind.virtualCallReloc 50),
              InstallEvent.endSafepoint 8] : List InstallEvent) → o = nextOff) :=
  c2_call_debug_at_next_offset 8 16 ⟨INVOKEVIRTUAL, 50, 100⟩
    ⟨0, some (CallTargetKind.javaMethod 3), some ⟨true⟩, InstKind.callOrJump⟩
    ⟨true⟩ ⟨INVOKE_INVALID, 50, 100⟩
    [InstallEvent.addSafepoint 8, InstallEvent.recordScopeAt 8,
      InstallEvent.relocateAt 100 (RelocKind.virtualCallReloc 50),
      InstallEvent.endSafepoint 8]
    (by decide) (by decide) rfl rfl

/-- C10: the stub-section reservation equals `estimate_stub_entries()` times
the per-stub size; a successfully processed Call site emits a static call
stub only when the pending call type was INVOKESTATIC or INVOKESPECIAL; and
processing any site list from the initial state emits at most
`estimate_stub_entries()` stubs, since each qualifying Mark enables at most
one following Call (the pending type resets after every Call). -/
theorem c10_stub_estimate_bound
    (callInstSize farCallInstSize : Nat) (constantsSize : Int)
    (toInterpStubSize instStart : Nat) (sites : List Site) :
    reservedStubSpace sites toInterpStubSize =
        estimateStubEntries sites * toInterpStubSize ∧
      (∀ (st : InstallerState) (s : CallSite) st' evs,
        siteCall callInstSize farCallInstSize st s = .ok (st', evs) →
        0 < countStubEvents evs →
        st.nextCallType = INVOKESTATIC ∨ st.nextCallType = INVOKESPECIAL) ∧
      (∀ st' evs,
        processSites callInstSize farCallInstSize constantsSize
            (initialInstallerState instStart) sites = .ok (st', evs) →
        countStubEvents evs ≤ estimateStubEntries sites) := by
  refine ⟨rfl, ?_, ?_⟩
  · intro st s st' evs h hpos
    have hle := siteCall_stub_le h
    by_contra hcon
    push_neg at hcon
    have : stubCredit st = 0 := by
      unfold stubCredit
      rw [if_neg (by tauto)]
    omega
  · intro st' evs h
    have hb := processSites_stub_bound h
    have h0 : stubCredit (initialInstallerState instStart) = 0 := rfl
    have h1 : stubCredit st' ≥ 0 := Nat.zero_le _
    omega

theorem c10_stub_estimate_bound_witness :
    countStubEvents
        [InstallEvent.addSafepoint 12,
          InstallEvent.relocateAt 104 RelocKind.staticCallReloc,
          InstallEvent.emitStaticCallStub 104, InstallEvent.endSafepoint 12] ≤
      estimateStubEntries
        [Site.mark ⟨0, some INVOKESTATIC⟩,
          Site.call ⟨4, some (CallTargetKind.javaMethod 1), some ⟨false⟩,
            InstKind.callOrJump⟩] :=
  (c10_stub_estimate_bound 8 16 0 24 100
    [Site.mark ⟨0, some INVOKESTATIC⟩,
      Site.call ⟨4, some (CallTargetKind.javaMethod 1), some ⟨false⟩,
        InstKind.callOrJump⟩]).2.2 ⟨INVOKE_INVALID, 100, 100⟩
    [InstallEvent.addSafepoint 12,
      InstallEvent.relocateAt 104 RelocKind.staticCallReloc,
      InstallEvent.emitStaticCallStub 104, InstallEvent.endSafepoint 12]
    (by rfl)

/-! ## Virtual-object pool lemmas (claim C3) -/

theorem setFields_poolIds (p : Pool) (id : Nat) (fs : List SV) :
    poolIds (setFields p id fs) = poolIds p := by
  unfold setFields poolIds
  rw [List.map_map]
  apply List.map_congr_left
  intro r hr
  by_cases h : r.id = id <;> simp [h]

theorem mem_poolIds_iff_find {pool : Pool} {id : Nat} :
    id ∈ poolIds pool ↔ (pool.find? (fun r => r.id = id)).isSome := by
  rw [List.find?_isSome]
  unfold poolIds
  simp

theorem lookup_mem_ids {env : VObjEnv} {id : Nat} {desc : VObjDesc}
    (h : env.lookup id = some desc) : id ∈ env.ids := by
  unfold VObjEnv.lookup at h
  unfold VObjEnv.ids
  cases hfind : env.entries.find? (fun e => e.1 = id) with
  | none => rw [hfind] at h; exact Option.noConfusion h
  | some e =>
    have hmem := List.mem_of_find?_eq_some hfind
    have hid := List.find?_some hfind
    simp at hid
    exact List.mem_map.mpr ⟨e, hmem, hid⟩

theorem closedIds_mono {env : VObjEnv} {ids ids2 : List Nat} {j : Nat}
    (h : ClosedIds env ids j) (hsub : ∀ x ∈ ids, x ∈ ids2) :
    ClosedIds env ids2 j := by
  intro desc hdesc k hk
  exact hsub _ (h desc hdesc k hk)

theorem StepInv.subset {env : VObjEnv} {pool pool2 : Pool} {srcs : List GValue}
    (h : StepInv env pool pool2 srcs) :
    ∀ x ∈ poolIds pool, x ∈ poolIds pool2 := by
  obtain ⟨newIds, hnew⟩ := h.grows
  intro x hx
  rw [hnew]
  exact List.mem_append.mpr (Or.inl hx)

theorem stepInv_refl {env : VObjEnv} {pool : Pool} {srcs : List GValue}
    (hrefs : ∀ k, GValue.vobj k ∈ srcs → k ∈ poolIds pool) :
    StepInv env pool pool srcs := by
  refine ⟨⟨[], by simp⟩, fun h => h, fun j hj => Or.inl hj, ?_, hrefs⟩
  intro j hj hnot
  exact absurd hj hnot

theorem stepInv_refl_single {env : VObjEnv} {pool : Pool} {v : GValue}
    (hv : ∀ k, v ≠ GValue.vobj k) :
    StepInv env pool pool [v] := by
  apply stepInv_refl
  intro k hk
  simp at hk
  exact absurd hk.symm (hv k)

theorem stepInv_comp {env : VObjEnv} {pool p1 p2 : Pool} {v : GValue}
    {l : List GValue} (h1 : StepInv env pool p1 [v])
    (h2 : StepInv env p1 p2 l) : StepInv env pool p2 (v :: l) := by
  refine ⟨?_, ?_, ?_, ?_, ?_⟩
  · obtain ⟨n1, hn1⟩ := h1.grows
    obtain ⟨n2, hn2⟩ := h2.grows
    exact ⟨n1 ++ n2, by rw [hn2, hn1, List.append_assoc]⟩
  · exact fun h => h2.nodup (h1.nodup h)
  · intro j hj
    rcases h2.sound j hj with hj1 | ⟨w, hw, hr⟩
    · rcases h1.sound j hj1 with hj0 | ⟨w, hw, hr⟩
      · exact Or.inl hj0
      · exact Or.inr ⟨w, by simp at hw; simp [hw], hr⟩
    · exact Or.inr ⟨w, List.mem_cons_of_mem _ hw, hr⟩
  · intro j hj hnot
    by_cases hj1 : j ∈ poolIds p1
    · exact closedIds_mono (h1.closedNew j hj1 hnot) h2.subset
    · exact h2.closedNew j hj hj1
  · intro k hk
    rcases List.mem_cons.mp hk with hk | hk
    · exact h2.subset _ (h1.refs k (by simp [hk]))
    · exact h2.refs k hk

theorem stepInv_vobj_hit {env : VObjEnv} {pool : Pool} {id : Nat}
    (hid : id ∈ poolIds pool) : StepInv env pool pool [GValue.vobj id] := by
  apply stepInv_refl
  intro k hk
  simp at hk
  cases hk
  exact hid

theorem poolIds_append (p q : Pool) :
    poolIds (p ++ q) = poolIds p ++ poolIds q := by
  unfold poolIds
  exact List.map_append _ _ _

set_option maxHeartbeats 1000000 in
theorem getScopeValueN_pool_eq {P : Platform} {env : VObjEnv} {tfs : Int}
    {n : Nat} {v : GValue} {pool pool2 : Pool} {sv : SV} {snd : Option SV}
    (hv : ∀ id, v ≠ GValue.vobj id)
    (h : getScopeValueN P env tfs n v pool = .ok (pool2, sv, snd)) :
    pool2 = pool := by
  cases v
  case vobj id => exact absurd rfl (hv id)
  all_goals
    simp only [getScopeValueN] at h
  all_goals
    first
      | exact RRes.noConfusion h
      | exact (congrArg Prod.fst (RRes.ok.inj h)).symm
      | (split_ifs at h <;>
          first
            | exact RRes.noConfusion h
            | exact (congrArg Prod.fst (RRes.ok.inj h)).symm)

theorem resolve_inv (P : Platform) (env : VObjEnv) (tfs : Int) :
    ∀ n : Nat,
      (∀ v pool pool2 sv snd,
        getScopeValueN P env tfs n v pool = .ok (pool2, sv, snd) →
        StepInv env pool pool2 [v]) ∧
      (∀ isLA (l : List GValue) pool pool2 svs,
        resolveFieldsN P env tfs n isLA l pool = .ok (pool2, svs) →
        StepInv env pool pool2 l) := by
  have fieldsStep : ∀ n : Nat,
      (∀ v pool pool2 sv snd,
        getScopeValueN P env tfs n v pool = .ok (pool2, sv, snd) →
        StepInv env pool pool2 [v]) →
      (∀ isLA (l : List GValue) pool pool2 svs,
        resolveFieldsN P env tfs n isLA l pool = .ok (pool2, svs) →
        StepInv env pool pool2 l) := by
    intro n hv isLA l
    induction l with
    | nil =>
      intro pool pool2 svs h
      simp only [resolveFieldsN] at h
      have hp : pool = pool2 := congrArg Prod.fst (RRes.ok.inj h)
      subst hp
      exact stepInv_refl (fun k hk => absurd hk (by simp))
    | cons w rest ihl =>
      intro pool pool2 svs h
      simp only [resolveFieldsN] at h
      cases hgv : getScopeValueN P env tfs n w pool with
      | fatalAbort => rw [hgv] at h; exact RRes.noConfusion h
      | outOfFuel => rw [hgv] at h; exact RRes.noConfusion h
      | ok p1 =>
        obtain ⟨pool1, sv1, snd1⟩ := p1
        simp only [hgv] at h
        cases hrest : resolveFieldsN P env tfs n isLA rest pool1 with
        | fatalAbort => rw [hrest] at h; exact RRes.noConfusion h
        | outOfFuel => rw [hrest] at h; exact RRes.noConfusion h
        | ok p2 =>
          obtain ⟨pool2c, svsc⟩ := p2
          simp only [hrest] at h
          have hp : pool2c = pool2 := congrArg Prod.fst (RRes.ok.inj h)
          subst hp
          exact stepInv_comp (hv w pool pool1 sv1 snd1 hgv)
            (ihl pool1 pool2c svsc hrest)
  have valueStep : ∀ n : Nat,
      (∀ isLA (l : List GValue) pool pool2 svs,
        resolveFieldsN P env tfs n isLA l pool = .ok (pool2, svs) →
        StepInv env pool pool2 l) →
      (∀ v pool pool2 sv snd,
        getScopeValueN P env tfs (n + 1) v pool = .ok (pool2, sv, snd) →
        StepInv env pool pool2 [v]) := by
    intro n hfields v pool pool2 sv snd h
    by_cases hvv : ∀ id, v ≠ GValue.vobj id
    · have hp := getScopeValueN_pool_eq hvv h
      subst hp
      exact stepInv_refl_single hvv
    · push_neg at hvv
      obtain ⟨id, rfl⟩ := hvv
      simp only [getScopeValueN] at h
      cases hfind : pool.find? (fun r => r.id = id) with
      | some r =>
        simp only [hfind] at h
        have hp : pool = pool2 := congrArg Prod.fst (RRes.ok.inj h)
        subst hp
        exact stepInv_vobj_hit (mem_poolIds_iff_find.mpr (by rw [hfind]; rfl))
      | none =>
        simp only [hfind] at h
        cases hlook : env.lookup id with
        | none =>
          simp only [hlook] at h
          exact RRes.noConfusion h
        | some desc =>
          simp only [hlook] at h
          cases hres : resolveFieldsN P env tfs n desc.isLongArray
              desc.values (pool ++ [⟨id, []⟩]) with
          | fatalAbort => simp only [hres] at h; exact RRes.noConfusion h
          | outOfFuel => simp only [hres] at h; exact RRes.noConfusion h
          | ok p =>
            obtain ⟨pool2c, fvs⟩ := p
            simp only [hres] at h
            have hp : setFields pool2c id fvs = pool2 :=
              congrArg Prod.fst (RRes.ok.inj h)
            have hids2 : poolIds pool2 = poolIds pool2c := by
              rw [← hp, setFields_poolIds]
            have hnotin : id ∉ poolIds pool := by
              intro hmem
              have hs := mem_poolIds_iff_find.mp hmem
              rw [hfind] at hs
              simp at hs
            have hmid : poolIds (pool ++ [⟨id, []⟩]) = poolIds pool ++ [id] := by
              rw [poolIds_append]; rfl
            have hfi := hfields desc.isLongArray desc.values
              (pool ++ [⟨id, []⟩]) pool2c fvs hres
            have hidmem : id ∈ poolIds pool2c := by
              apply hfi.subset
              rw [hmid]
              simp
            refine ⟨?_, ?_, ?_, ?_, ?_⟩
            · obtain ⟨newIds, hnew⟩ := hfi.grows
              rw [hmid] at hnew
              exact ⟨[id] ++ newIds, by rw [hids2, hnew, List.append_assoc]⟩
            · intro hnd
              rw [hids2]
              apply hfi.nodup
              rw [hmid]
              rw [List.nodup_append]
              exact ⟨hnd, List.nodup_singleton _, by
                intro a ha hb
                simp at hb
                subst hb
                exact hnotin ha⟩
            · intro j hj
              rw [hids2] at hj
              rcases hfi.sound j hj with hj1 | ⟨w, hw, hr⟩
              · rw [hmid] at hj1
                rcases List.mem_append.mp hj1 with hj2 | hj2
                · exact Or.inl hj2
                · simp at hj2
                  subst hj2
                  exact Or.inr ⟨GValue.vobj j, by simp, Reaches.self j⟩
              · exact Or.inr ⟨GValue.vobj id, by simp,
                  Reaches.field id desc w j hlook hw hr⟩
            · intro j hj hjnot
              rw [hids2] at hj
              by_cases hjid : j = id
              · subst hjid
                intro desc2 hdesc2 k hk
                rw [hlook] at hdesc2
                injection hdesc2 with hdesc2
                subst hdesc2
                rw [hids2]
                exact hfi.refs k hk
              · have hjnot2 : j ∉ poolIds (pool ++ [⟨id, []⟩]) := by
                  rw [hmid]
                  intro hcon
                  rcases List.mem_append.mp hcon with hc | hc
                  · exact hjnot hc
                  · simp at hc; exact hjid hc
                have := hfi.closedNew j hj hjnot2
                exact closedIds_mono this (by rw [hids2]; exact fun x hx => hx)
            · intro k hk
              simp at hk
              subst hk
              rw [hids2]
              exact hidmem
  intro n
  induction n with
  | zero =>
    have hv0 : ∀ v pool pool2 sv snd,
        getScopeValueN P env tfs 0 v pool = .ok (pool2, sv, snd) →
        StepInv env pool pool2 [v] := by
      intro v pool pool2 sv snd h
      by_cases hvv : ∀ id, v ≠ GValue.vobj id
      · have hp := getScopeValueN_pool_eq hvv h
        subst hp
        exact stepInv_refl_single hvv
      · push_neg at hvv
        obtain ⟨id, rfl⟩ := hvv
        simp only [getScopeValueN] at h
        cases hfind : pool.find? (fun r => r.id = id) with
        | some r =>
          simp only [hfind] at h
          have hp : pool = pool2 := congrArg Prod.fst (RRes.ok.inj h)
          subst hp
          exact stepInv_vobj_hit (mem_poolIds_iff_find.mpr (by rw [hfind]; rfl))
        | none =>
          simp only [hfind] at h
          cases hlook : env.lookup id with
          | none =>
            simp only [hlook] at h
            exact RRes.noConfusion h
          | some desc =>
            simp only [hlook] at h
            exact RRes.noConfusion h
    exact ⟨hv0, fieldsStep 0 hv0⟩
  | succ n ih =>
    have hvS := valueStep n ih.2
    exact ⟨hvS, fieldsStep (n + 1) hvS⟩

theorem diffCard_le {env : VObjEnv} {p p2 : Pool}
    (hsub : ∀ x ∈ poolIds p, x ∈ poolIds p2) :
    diffCard env p2 ≤ diffCard env p := by
  unfold diffCard
  apply Finset.card_le_card
  intro x hx
  rw [Finset.mem_sdiff] at hx ⊢
  refine ⟨hx.1, ?_⟩
  intro hcon
  exact hx.2 (List.mem_toFinset.mpr (hsub x (List.mem_toFinset.mp hcon)))

theorem diffCard_register {env : VObjEnv} {pool : Pool} {id : Nat}
    (hidenv : id ∈ env.ids) (hnot : id ∉ poolIds pool) :
    diffCard env (pool ++ [⟨id, []⟩]) < diffCard env pool := by
  unfold diffCard
  have hsub : env.ids.toFinset \ (poolIds (pool ++ [⟨id, []⟩])).toFinset ⊆
      env.ids.toFinset \ (poolIds pool).toFinset := by
    intro x hx
    rw [Finset.mem_sdiff] at hx ⊢
    refine ⟨hx.1, fun hc => hx.2 ?_⟩
    rw [List.mem_toFinset] at hc ⊢
    rw [poolIds_append]
    exact List.mem_append.mpr (Or.inl hc)
  apply Finset.card_lt_card
  rw [Finset.ssubset_iff_of_subset hsub]
  refine ⟨id, ?_, ?_⟩
  · rw [Finset.mem_sdiff, List.mem_toFinset, List.mem_toFinset]
    exact ⟨hidenv, hnot⟩
  · rw [Finset.mem_sdiff]
    push_neg
    intro _
    rw [List.mem_toFinset, poolIds_append]
    refine List.mem_append.mpr (Or.inr ?_)
    simp [poolIds]

theorem diffCard_pos {env : VObjEnv} {pool : Pool} {id : Nat}
    (hidenv : id ∈ env.ids) (hnot : id ∉ poolIds pool) :
    0 < diffCard env pool := by
  unfold diffCard
  apply Finset.card_pos.mpr
  exact ⟨id, by
    rw [Finset.mem_sdiff, List.mem_toFinset, List.mem_toFinset]
    exact ⟨hidenv, hnot⟩⟩

set_option maxHeartbeats 1000000 in
theorem getScopeValueN_no_fuel_not_vobj {P : Platform} {env : VObjEnv}
    {tfs : Int} {n : Nat} {v : GValue} {pool : Pool}
    (hv : ∀ id, v ≠ GValue.vobj id) :
    getScopeValueN P env tfs n v pool ≠ .outOfFuel := by
  intro h
  cases v
  case vobj id => exact absurd rfl (hv id)
  all_goals
    simp only [getScopeValueN] at h
  all_goals
    first
      | exact RRes.noConfusion h
      | (split_ifs at h <;> exact RRes.noConfusion h)

theorem resolve_no_fuel (P : Platform) (env : VObjEnv) (tfs : Int) :
    ∀ n : Nat,
      (∀ v pool, diffCard env pool ≤ n →
        getScopeValueN P env tfs n v pool ≠ .outOfFuel) ∧
      (∀ isLA (l : List GValue) pool, diffCard env pool ≤ n →
        resolveFieldsN P env tfs n isLA l pool ≠ .outOfFuel) := by
  have fieldsStep : ∀ n : Nat,
      (∀ v pool, diffCard env pool ≤ n →
        getScopeValueN P env tfs n v pool ≠ .outOfFuel) →
      (∀ isLA (l : List GValue) pool, diffCard env pool ≤ n →
        resolveFieldsN P env tfs n isLA l pool ≠ .outOfFuel) := by
    intro n hv isLA l
    induction l with
    | nil =>
      intro pool hdiff h
      simp only [resolveFieldsN] at h
      exact RRes.noConfusion h
    | cons w rest ihl =>
      intro pool hdiff h
      simp only [resolveFieldsN] at h
      cases hgv : getScopeValueN P env tfs n w pool with
      | fatalAbort => rw [hgv] at h; exact RRes.noConfusion h
      | outOfFuel => exact hv w pool hdiff hgv
      | ok p1 =>
        obtain ⟨pool1, sv1, snd1⟩ := p1
        simp only [hgv] at h
        have hinv := ((resolve_inv P env tfs n).1 w pool pool1 sv1 snd1 hgv)
        have hd1 : diffCard env pool1 ≤ n :=
          le_trans (diffCard_le hinv.subset) hdiff
        cases hrest : resolveFieldsN P env tfs n isLA rest pool1 with
        | fatalAbort => rw [hrest] at h; exact RRes.noConfusion h
        | outOfFuel => exact ihl pool1 hd1 hrest
        | ok p2 =>
          obtain ⟨pool2c, svsc⟩ := p2
          simp only [hrest] at h
          exact RRes.noConfusion h
  have valueStep : ∀ n : Nat,
      (∀ isLA (l : List GValue) pool, diffCard env pool ≤ n →
        resolveFieldsN P env tfs n isLA l pool ≠ .outOfFuel) →
      (∀ v pool, diffCard env pool ≤ n + 1 →
        getScopeValueN P env tfs (n + 1) v pool ≠ .outOfFuel) := by
    intro n hfields v pool hdiff h
    by_cases hvv : ∀ id, v ≠ GValue.vobj id
    · exact getScopeValueN_no_fuel_not_vobj hvv h
    · push_neg at hvv
      obtain ⟨id, rfl⟩ := hvv
      simp only [getScopeValueN] at h
      cases hfind : pool.find? (fun r => r.id = id) with
      | some r => simp only [hfind] at h; exact RRes.noConfusion h
      | none =>
        simp only [hfind] at h
        cases hlook : env.lookup id with
        | none => simp only [hlook] at h; exact RRes.noConfusion h
        | some desc =>
          simp only [hlook] at h
          have hnot : id ∉ poolIds pool := by
            intro hmem
            have hs := mem_poolIds_iff_find.mp hmem
            rw [hfind] at hs
            simp at hs
          have hd1 : diffCard env (pool ++ [⟨id, []⟩]) ≤ n := by
            have := diffCard_register (lookup_mem_ids hlook) hnot
            omega
          cases hres : resolveFieldsN P env tfs n desc.isLongArray
              desc.values (pool ++ [⟨id, []⟩]) with
          | fatalAbort => simp only [hres] at h; exact RRes.noConfusion h
          | outOfFuel =>
            exact hfields desc.isLongArray desc.values _ hd1 hres
          | ok p =>
            obtain ⟨pool2c, fvs⟩ := p
            simp only [hres] at h
            exact RRes.noConfusion h
  intro n
  induction n with
  | zero =>
    have hv0 : ∀ v pool, diffCard env pool ≤ 0 →
        getScopeValueN P env tfs 0 v pool ≠ .outOfFuel := by
      intro v pool hdiff h
      by_cases hvv : ∀ id, v ≠ GValue.vobj id
      · exact getScopeValueN_no_fuel_not_vobj hvv h
      · push_neg at hvv
        obtain ⟨id, rfl⟩ := hvv
        simp only [getScopeValueN] at h
        cases hfind : pool.find? (fun r => r.id = id) with
        | some r => simp only [hfind] at h; exact RRes.noConfusion h
        | none =>
          simp only [hfind] at h
          cases hlook : env.lookup id with
          | none => simp only [hlook] at h; exact RRes.noConfusion h
          | some desc =>
            have hnot : id ∉ poolIds pool := by
              intro hmem
              have hs := mem_poolIds_iff_find.mp hmem
              rw [hfind] at hs
              simp at hs
            have := diffCard_pos (lookup_mem_ids hlook) hnot
            omega
    exact ⟨hv0, fieldsStep 0 hv0⟩
  | succ n ih =>
    have hvS := valueStep n ih.2
    exact ⟨hvS, fieldsStep (n + 1) hvS⟩

set_option maxHeartbeats 1000000 in
theorem getScopeValueN_vobj_hit (P : Platform) (env : VObjEnv) (tfs : Int)
    (n : Nat) {id : Nat} {pool : Pool} (hid : id ∈ poolIds pool) :
    getScopeValueN P env tfs n (GValue.vobj id) pool =
      .ok (pool, SV.objRef id, none) := by
  have hs := mem_poolIds_iff_find.mp hid
  cases hfind : pool.find? (fun r => r.id = id) with
  | none => rw [hfind] at hs; simp at hs
  | some r => simp only [getScopeValueN, hfind]

set_option maxHeartbeats 1000000 in
theorem getScopeValueN_vobj_novel (P : Platform) (env : VObjEnv) (tfs : Int)
    (n : Nat) {id : Nat} {pool : Pool} {desc : VObjDesc}
    (hnot : id ∉ poolIds pool) (hlook : env.lookup id = some desc) :
    getScopeValueN P env tfs (n + 1) (GValue.vobj id) pool =
      (match resolveFieldsN P env tfs n desc.isLongArray desc.values
          (pool ++ [⟨id, []⟩]) with
        | .fatalAbort => .fatalAbort
        | .outOfFuel => .outOfFuel
        | .ok (pool2, fvs) =>
          .ok (setFields pool2 id fvs, SV.objRef id, none)) := by
  have hfind : pool.find? (fun r => r.id = id) = none := by
    rw [List.find?_eq_none]
    intro r hr
    simp only [decide_eq_true_eq]
    intro hcon
    exact hnot (hcon ▸ List.mem_map.mpr ⟨r, hr, rfl⟩)
  simp only [getScopeValueN, hfind, hlook]

theorem reaches_mem {env : VObjEnv} {ids : List Nat}
    (hclosed : ∀ j ∈ ids, ClosedIds env ids j) :
    ∀ {v : GValue} {j : Nat}, Reaches env v j →
      (∀ k, v = GValue.vobj k → k ∈ ids) → j ∈ ids := by
  intro v j hr
  induction hr with
  | self id => intro hroot; exact hroot id rfl
  | field id desc w j hlk hw hrw ih =>
    intro hroot
    have hid : id ∈ ids := hroot id rfl
    apply ih
    intro k hk
    rw [hk] at hw
    exact hclosed id hid desc hlk k hw

/-- C3: virtual-object deduplication and materialization.  (1) A
`VirtualObject` whose id already appears in the in-progress object pool
returns the existing (possibly still-under-construction) record, leaving the
pool unchanged.  (2) A novel `VirtualObject` is appended to the pool before
its field values are recursively resolved — the recursive field resolution
already sees the new entry, which is what makes cyclic references resolve to
the same record instead of looping.  (3) With fuel at least the number of
unregistered environment ids, resolution never exhausts its fuel: cyclic
references terminate.  (4) Resolving a frame's root values from an empty
pool materializes each distinct reachable VirtualObject id exactly once:
the final pool's ids are duplicate-free and are exactly the ids reachable
from the roots — N distinct ids in the graph give exactly N records. -/
theorem c3_virtual_object_dedup (P : Platform) (env : VObjEnv) (tfs : Int)
    (n : Nat) (roots : List GValue) :
    (∀ (id : Nat) (pool : Pool), id ∈ poolIds pool →
      getScopeValueN P env tfs n (GValue.vobj id) pool =
        .ok (pool, SV.objRef id, none)) ∧
      (∀ (id : Nat) (pool : Pool) (desc : VObjDesc), id ∉ poolIds pool →
        env.lookup id = some desc →
        getScopeValueN P env tfs (n + 1) (GValue.vobj id) pool =
          (match resolveFieldsN P env tfs n desc.isLongArray desc.values
              (pool ++ [⟨id, []⟩]) with
            | .fatalAbort => .fatalAbort
            | .outOfFuel => .outOfFuel
            | .ok (pool2, fvs) =>
              .ok (setFields pool2 id fvs, SV.objRef id, none))) ∧
      (diffCard env [] ≤ n → resolveValues P env tfs n roots [] ≠ .outOfFuel) ∧
      (∀ pool2 svs, resolveValues P env tfs n roots [] = .ok (pool2, svs) →
        (poolIds pool2).Nodup ∧
        (∀ j, j ∈ poolIds pool2 ↔ ∃ v ∈ roots, Reaches env v j)) := by
  refine ⟨fun id pool hid => getScopeValueN_vobj_hit P env tfs n hid,
    fun id pool desc hnot hlook =>
      getScopeValueN_vobj_novel P env tfs n hnot hlook,
    fun hdiff => (resolve_no_fuel P env tfs n).2 false roots [] hdiff,
    ?_⟩
  intro pool2 svs hres
  have hinv := (resolve_inv P env tfs n).2 false roots [] pool2 svs hres
  have hnil : poolIds ([] : Pool) = [] := rfl
  constructor
  · apply hinv.nodup
    rw [hnil]
    exact List.nodup_nil
  · intro j
    constructor
    · intro hj
      rcases hinv.sound j hj with hj0 | hreach
      · rw [hnil] at hj0
        exact absurd hj0 (List.not_mem_nil j)
      · exact hreach
    · intro ⟨v, hv, hr⟩
      have hclosed : ∀ i ∈ poolIds pool2, ClosedIds env (poolIds pool2) i := by
        intro i hi
        exact hinv.closedNew i hi (by rw [hnil]; exact List.not_mem_nil i)
      apply reaches_mem hclosed hr
      intro k hk
      rw [hk] at hv
      exact hinv.refs k hv

theorem c3_virtual_object_dedup_witness :
    ((poolIds [⟨1, [SV.objRef 2]⟩, ⟨2, [SV.objRef 1]⟩]).Nodup ∧
      (∀ j, j ∈ poolIds [⟨1, [SV.objRef 2]⟩, ⟨2, [SV.objRef 1]⟩] ↔
        ∃ v ∈ [GValue.vobj 1, GValue.vobj 2, GValue.vobj 1],
          Reaches ⟨[(1, ⟨false, [GValue.vobj 2]⟩),
            (2, ⟨false, [GValue.vobj 1]⟩)]⟩ v j)) ∧
      getScopeValueN ⟨true, fun _ => true, false⟩
          ⟨[(1, ⟨false, [GValue.vobj 2]⟩), (2, ⟨false, [GValue.vobj 1]⟩)]⟩ 0 2
          (GValue.vobj 1) [⟨1, [SV.objRef 2]⟩, ⟨2, [SV.objRef 1]⟩] =
        .ok ([⟨1, [SV.objRef 2]⟩, ⟨2, [SV.objRef 1]⟩], SV.objRef 1, none) :=
  ⟨(c3_virtual_object_dedup ⟨true, fun _ => true, false⟩
      ⟨[(1, ⟨false, [GValue.vobj 2]⟩), (2, ⟨false, [GValue.vobj 1]⟩)]⟩ 0 2
      [GValue.vobj 1, GValue.vobj 2, GValue.vobj 1]).2.2.2
      [⟨1, [SV.objRef 2]⟩, ⟨2, [SV.objRef 1]⟩]
      [SV.objRef 1, SV.objRef 2, SV.objRef 1]
      (by simp [resolveValues, resolveFieldsN, getScopeValueN, VObjEnv.lookup,
        setFields, List.find?]),
    (c3_virtual_object_dedup ⟨true, fun _ => true, false⟩
      ⟨[(1, ⟨false, [GValue.vobj 2]⟩), (2, ⟨false, [GValue.vobj 1]⟩)]⟩ 0 2
      [GValue.vobj 1, GValue.vobj 2, GValue.vobj 1]).1 1
      [⟨1, [SV.objRef 2]⟩, ⟨2, [SV.objRef 1]⟩] (by simp [poolIds])⟩

/-! ## Double-width values and the ILLEGAL placeholder (claim C9) -/

set_option maxHeartbeats 2000000 in
theorem getScopeValueN_second {P : Platform} {env : VObjEnv} {tfs : Int}
    {n : Nat} {v : GValue} {pool pool2 : Pool} {sv : SV} {snd : Option SV}
    (h : getScopeValueN P env tfs n v pool = .ok (pool2, sv, snd)) :
    snd.isSome = isDoubleWidth P v := by
  cases v
  case illegalVal =>
    simp [getScopeValueN] at h
    obtain ⟨h1, h2, h3⟩ := h
    subst h3
    rfl
  case registerValue num ty ref =>
    cases hgp : P.isGeneralPurposeReg num <;> cases ty <;> cases ref <;>
      simp [getScopeValueN, hgp] at h <;>
      obtain ⟨h1, h2, h3⟩ := h <;>
      subst h3 <;>
      simp [isDoubleWidth, hgp]
  case stackSlot off afs ty ref =>
    cases ty <;> cases ref <;>
      simp [getScopeValueN] at h <;>
      obtain ⟨h1, h2, h3⟩ := h <;>
      subst h3 <;>
      simp [isDoubleWidth]
  case rawConst prim =>
    simp [getScopeValueN] at h
    obtain ⟨h1, h2, h3⟩ := h
    subst h3
    rfl
  case primConst ty prim =>
    cases ty <;>
      simp [getScopeValueN] at h <;>
      obtain ⟨h1, h2, h3⟩ := h <;>
      subst h3 <;>
      simp [isDoubleWidth]
  case nullConst =>
    simp [getScopeValueN] at h
    obtain ⟨h1, h2, h3⟩ := h
    subst h3
    rfl
  case objConst objId =>
    simp [getScopeValueN] at h
    obtain ⟨h1, h2, h3⟩ := h
    subst h3
    rfl
  case metaspaceConst prim =>
    simp [getScopeValueN] at h
  case monitorValue o s e =>
    simp [getScopeValueN] at h
  case vobj id =>
    simp only [getScopeValueN] at h
    cases hfind : pool.find? (fun r => r.id = id) with
    | some r =>
      simp only [hfind] at h
      have h3 := congrArg (fun x => x.2.2) (RRes.ok.inj h)
      simp at h3
      rw [← h3]
      rfl
    | none =>
      simp only [hfind] at h
      cases hlook : env.lookup id with
      | none => simp only [hlook] at h; exact RRes.noConfusion h
      | some desc =>
        simp only [hlook] at h
        cases n with
        | zero => exact RRes.noConfusion h
        | succ n2 =>
          cases hres : resolveFieldsN P env tfs n2 desc.isLongArray
              desc.values (pool ++ [⟨id, []⟩]) with
          | fatalAbort => simp only [hres] at h; exact RRes.noConfusion h
          | outOfFuel => simp only [hres] at h; exact RRes.noConfusion h
          | ok p =>
            obtain ⟨pool2c, fvs⟩ := p
            simp only [hres] at h
            have h3 := congrArg (fun x => x.2.2) (RRes.ok.inj h)
            simp at h3
            rw [← h3]
            rfl

theorem getMonitorValueN_ok_shape {P : Platform} {env : VObjEnv} {tfs : Int}
    {n : Nat} {v : GValue} {pool : Pool}
    {out : Pool × (SV × SV × Bool)}
    (h : getMonitorValueN P env tfs n v pool = .ok out) :
    ∃ o s e, v = GValue.monitorValue o s e := by
  cases v
  case monitorValue o s e => exact ⟨o, s, e, rfl⟩
  all_goals simp [getMonitorValueN] at h

theorem walk_ok_okSeq (P : Platform) (env : VObjEnv) (tfs : Int)
    (n lc ec : Nat) :
    ∀ (len : Nat) (values : List GValue), values.length ≤ len →
      ∀ (i : Nat) (pool : Pool)
        (out : Pool × List SV × List SV × List (SV × SV × Bool)),
        walkFrameValuesN P env tfs n lc ec values i pool = .ok out →
        okSeq P values = true := by
  intro len
  induction len with
  | zero =>
    intro values hlen i pool out h
    have hnil : values = [] := List.eq_nil_of_length_eq_zero (Nat.le_zero.mp hlen)
    subst hnil
    simp [okSeq]
  | succ len ih =>
    intro values hlen i pool out h
    cases values with
    | nil => simp [okSeq]
    | cons v rest =>
      simp only [walkFrameValuesN] at h
      simp only [List.length_cons] at hlen
      by_cases hloc : i < lc
      · rw [if_pos hloc] at h
        cases hgv : getScopeValueN P env tfs n v pool with
        | fatalAbort => rw [hgv] at h; exact RRes.noConfusion h
        | outOfFuel => rw [hgv] at h; exact RRes.noConfusion h
        | ok p1 =>
          obtain ⟨pool1, first, second⟩ := p1
          have hdw := getScopeValueN_second hgv
          cases second with
          | none =>
            simp only [hgv] at h
            have hfalse : isDoubleWidth P v = false := by rw [← hdw]; rfl
            cases hw : walkFrameValuesN P env tfs n lc ec rest (i + 1) pool1 with
            | fatalAbort => rw [hw] at h; exact RRes.noConfusion h
            | outOfFuel => rw [hw] at h; exact RRes.noConfusion h
            | ok p2 =>
              have hrest := ih rest (by omega) (i + 1) pool1 p2 hw
              rw [okSeq.eq_def]
              simp [hfalse, hrest]
          | some s2 =>
            have htrue : isDoubleWidth P v = true := by rw [← hdw]; rfl
            cases rest with
            | nil =>
              simp only [hgv] at h
              exact RRes.noConfusion h
            | cons w rest2 =>
              simp only [hgv] at h
              by_cases hill : w = GValue.illegalVal
              · subst hill
                rw [if_pos rfl] at h
                cases hw : walkFrameValuesN P env tfs n lc ec rest2 (i + 2) pool1 with
                | fatalAbort => rw [hw] at h; exact RRes.noConfusion h
                | outOfFuel => rw [hw] at h; exact RRes.noConfusion h
                | ok p2 =>
                  have h2 : rest2.length ≤ len := by
                    simp only [List.length_cons] at hlen
                    omega
                  have hrest := ih rest2 h2 (i + 2) pool1 p2 hw
                  simp [okSeq, htrue, hrest]
              · rw [if_neg hill] at h
                exact RRes.noConfusion h
      · by_cases hexp : i < lc + ec
        · rw [if_neg hloc, if_pos hexp] at h
          cases hgv : getScopeValueN P env tfs n v pool with
          | fatalAbort => rw [hgv] at h; exact RRes.noConfusion h
          | outOfFuel => rw [hgv] at h; exact RRes.noConfusion h
          | ok p1 =>
            obtain ⟨pool1, first, second⟩ := p1
            have hdw := getScopeValueN_second hgv
            cases second with
            | none =>
              simp only [hgv] at h
              have hfalse : isDoubleWidth P v = false := by rw [← hdw]; rfl
              cases hw : walkFrameValuesN P env tfs n lc ec rest (i + 1) pool1 with
              | fatalAbort => rw [hw] at h; exact RRes.noConfusion h
              | outOfFuel => rw [hw] at h; exact RRes.noConfusion h
              | ok p2 =>
                have hrest := ih rest (by omega) (i + 1) pool1 p2 hw
                rw [okSeq.eq_def]
                simp [hfalse, hrest]
            | some s2 =>
              have htrue : isDoubleWidth P v = true := by rw [← hdw]; rfl
              cases rest with
              | nil =>
                simp only [hgv] at h
                exact RRes.noConfusion h
              | cons w rest2 =>
                simp only [hgv] at h
                by_cases hill : w = GValue.illegalVal
                · subst hill
                  rw [if_pos rfl] at h
                  cases hw : walkFrameValuesN P env tfs n lc ec rest2 (i + 2) pool1 with
                  | fatalAbort => rw [hw] at h; exact RRes.noConfusion h
                  | outOfFuel => rw [hw] at h; exact RRes.noConfusion h
                  | ok p2 =>
                    have h2 : rest2.length ≤ len := by
                      simp only [List.length_cons] at hlen
                      omega
                    have hrest := ih rest2 h2 (i + 2) pool1 p2 hw
                    simp [okSeq, htrue, hrest]
                · rw [if_neg hill] at h
                  exact RRes.noConfusion h
        · rw [if_neg hloc, if_neg hexp] at h
          cases hmv : getMonitorValueN P env tfs n v pool with
          | fatalAbort => rw [hmv] at h; exact RRes.noConfusion h
          | outOfFuel => rw [hmv] at h; exact RRes.noConfusion h
          | ok p1 =>
            obtain ⟨pool1, mon⟩ := p1
            simp only [hmv] at h
            obtain ⟨o, s, e, rfl⟩ := getMonitorValueN_ok_shape hmv
            cases hw : walkFrameValuesN P env tfs n lc ec rest (i + 1) pool1 with
            | fatalAbort => rw [hw] at h; exact RRes.noConfusion h
            | outOfFuel => rw [hw] at h; exact RRes.noConfusion h
            | ok p2 =>
              have hrest := ih rest (by omega) (i + 1) pool1 p2 hw
              rw [okSeq.eq_def]
              simp [isDoubleWidth, hrest]

theorem vobjFree_ne_vobj {v : GValue} (hv : vobjFree v = true) :
    ∀ id, v ≠ GValue.vobj id := by
  intro id heq
  subst heq
  simp [vobjFree] at hv

theorem getMonitorValueN_no_fuel {P : Platform} {env : VObjEnv} {tfs : Int}
    {n : Nat} {v : GValue} {pool : Pool} (hv : vobjFree v = true) :
    getMonitorValueN P env tfs n v pool ≠ .outOfFuel := by
  intro h
  cases v
  case monitorValue o s e =>
    simp only [getMonitorValueN] at h
    have hvo : vobjFree o = true := by
      simp [vobjFree] at hv; exact hv.1
    have hvs : vobjFree s = true := by
      simp [vobjFree] at hv; exact hv.2
    cases hgo : getScopeValueN P env tfs n o pool with
    | fatalAbort => rw [hgo] at h; exact RRes.noConfusion h
    | outOfFuel => exact getScopeValueN_no_fuel_not_vobj (vobjFree_ne_vobj hvo) hgo
    | ok p1 =>
      obtain ⟨pool1, osv, snd1⟩ := p1
      cases snd1 with
      | some s2 => simp only [hgo] at h; exact RRes.noConfusion h
      | none =>
        simp only [hgo] at h
        cases hgs : getScopeValueN P env tfs n s pool1 with
        | fatalAbort => rw [hgs] at h; exact RRes.noConfusion h
        | outOfFuel =>
          exact getScopeValueN_no_fuel_not_vobj (vobjFree_ne_vobj hvs) hgs
        | ok p2 =>
          obtain ⟨pool2, lsv, snd2⟩ := p2
          simp only [hgs] at h
          split_ifs at h
          all_goals cases lsv <;> exact RRes.noConfusion h
  all_goals
    simp only [getMonitorValueN] at h
    exact RRes.noConfusion h

theorem walk_no_fuel (P : Platform) (env : VObjEnv) (tfs : Int)
    (n lc ec : Nat) :
    ∀ (len : Nat) (values : List GValue), values.length ≤ len →
      (∀ v ∈ values, vobjFree v = true) →
      ∀ (i : Nat) (pool : Pool),
        walkFrameValuesN P env tfs n lc ec values i pool ≠ .outOfFuel := by
  intro len
  induction len with
  | zero =>
    intro values hlen hfree i pool h
    have hnil : values = [] := List.eq_nil_of_length_eq_zero (Nat.le_zero.mp hlen)
    subst hnil
    simp only [walkFrameValuesN] at h
    exact RRes.noConfusion h
  | succ len ih =>
    intro values hlen hfree i pool h
    cases values with
    | nil =>
      simp only [walkFrameValuesN] at h
      exact RRes.noConfusion h
    | cons v rest =>
      simp only [walkFrameValuesN] at h
      simp only [List.length_cons] at hlen
      have hfv : vobjFree v = true := hfree v (by simp)
      have hfrest : ∀ w ∈ rest, vobjFree w = true :=
        fun w hw => hfree w (by simp [hw])
      by_cases hloc : i < lc
      · rw [if_pos hloc] at h
        cases hgv : getScopeValueN P env tfs n v pool with
        | fatalAbort => rw [hgv] at h; exact RRes.noConfusion h
        | outOfFuel =>
          exact getScopeValueN_no_fuel_not_vobj (vobjFree_ne_vobj hfv) hgv
        | ok p1 =>
          obtain ⟨pool1, first, second⟩ := p1
          cases second with
          | none =>
            simp only [hgv] at h
            cases hw : walkFrameValuesN P env tfs n lc ec rest (i + 1) pool1 with
            | fatalAbort => rw [hw] at h; exact RRes.noConfusion h
            | outOfFuel => exact ih rest (by omega) hfrest (i + 1) pool1 hw
            | ok p2 => simp only [hw] at h; exact RRes.noConfusion h
          | some s2 =>
            cases rest with
            | nil =>
              simp only [hgv] at h
              exact RRes.noConfusion h
            | cons w rest2 =>
              simp only [hgv] at h
              by_cases hill : w = GValue.illegalVal
              · subst hill
                rw [if_pos rfl] at h
                cases hw : walkFrameValuesN P env tfs n lc ec rest2 (i + 2) pool1 with
                | fatalAbort => rw [hw] at h; exact RRes.noConfusion h
                | outOfFuel =>
                  have h2 : rest2.length ≤ len := by
                    simp only [List.length_cons] at hlen
                    omega
                  exact ih rest2 h2
                    (fun w2 hw2 => hfrest w2 (by simp [hw2])) (i + 2) pool1 hw
                | ok p2 => simp only [hw] at h; exact RRes.noConfusion h
              · rw [if_neg hill] at h
                exact RRes.noConfusion h
      · by_cases hexp : i < lc + ec
        · rw [if_neg hloc, if_pos hexp] at h
          cases hgv : getScopeValueN P env tfs n v pool with
          | fatalAbort => rw [hgv] at h; exact RRes.noConfusion h
          | outOfFuel =>
            exact getScopeValueN_no_fuel_not_vobj (vobjFree_ne_vobj hfv) hgv
          | ok p1 =>
            obtain ⟨pool1, first, second⟩ := p1
            cases second with
            | none =>
              simp only [hgv] at h
              cases hw : walkFrameValuesN P env tfs n lc ec rest (i + 1) pool1 with
              | fatalAbort => rw [hw] at h; exact RRes.noConfusion h
              | outOfFuel => exact ih rest (by omega) hfrest (i + 1) pool1 hw
              | ok p2 => simp only [hw] at h; exact RRes.noConfusion h
            | some s2 =>
              cases rest with
              | nil =>
                simp only [hgv] at h
                exact RRes.noConfusion h
              | cons w rest2 =>
                simp only [hgv] at h
                by_cases hill : w = GValue.illegalVal
                · subst hill
                  rw [if_pos rfl] at h
                  cases hw : walkFrameValuesN P env tfs n lc ec rest2 (i + 2) pool1 with
                  | fatalAbort => rw [hw] at h; exact RRes.noConfusion h
                  | outOfFuel =>
                    have h2 : rest2.length ≤ len := by
                      simp only [List.length_cons] at hlen
                      omega
                    exact ih rest2 h2
                      (fun w2 hw2 => hfrest w2 (by simp [hw2])) (i + 2) pool1 hw
                  | ok p2 => simp only [hw] at h; exact RRes.noConfusion h
                · rw [if_neg hill] at h
                  exact RRes.noConfusion h
        · rw [if_neg hloc, if_neg hexp] at h
          cases hmv : getMonitorValueN P env tfs n v pool with
          | fatalAbort => rw [hmv] at h; exact RRes.noConfusion h
          | outOfFuel => exact getMonitorValueN_no_fuel hfv hmv
          | ok p1 =>
            obtain ⟨pool1, mon⟩ := p1
            simp only [hmv] at h
            cases hw : walkFrameValuesN P env tfs n lc ec rest (i + 1) pool1 with
            | fatalAbort => rw [hw] at h; exact RRes.noConfusion h
            | outOfFuel => exact ih rest (by omega) hfrest (i + 1) pool1 hw
            | ok p2 => simp only [hw] at h; exact RRes.noConfusion h

/-- C9: every double-width value in a frame's flattened values sequence must
be immediately followed by the explicit `Value.ILLEGAL` placeholder, which is
consumed together with it: a successful walk implies the sequence is
well-formed in that sense; a malformed sequence never walks successfully;
and, when the values contain no virtual objects (so resolution cannot run
out of modelling fuel), a malformed sequence makes frame reconstruction end
in the fatal assertion failure — not a recoverable error, and not a silent
skip. -/
theorem c9_double_slot_illegal (P : Platform) (env : VObjEnv) (tfs : Int)
    (n lc ec : Nat) (values : List GValue) (pool : Pool) :
    (∀ out, walkFrameValuesN P env tfs n lc ec values 0 pool = .ok out →
      okSeq P values = true) ∧
      (okSeq P values = false →
        ∀ out, walkFrameValuesN P env tfs n lc ec values 0 pool ≠ .ok out) ∧
      ((∀ v ∈ values, vobjFree v = true) → okSeq P values = false →
        walkFrameValuesN P env tfs n lc ec values 0 pool = .fatalAbort) := by
  have ha : ∀ out, walkFrameValuesN P env tfs n lc ec values 0 pool = .ok out →
      okSeq P values = true :=
    fun out h =>
      walk_ok_okSeq P env tfs n lc ec values.length values le_rfl 0 pool out h
  refine ⟨ha, ?_, ?_⟩
  · intro hbad out hok
    have := ha out hok
    rw [this] at hbad
    exact Bool.noConfusion hbad
  · intro hfree hbad
    cases hw : walkFrameValuesN P env tfs n lc ec values 0 pool with
    | ok out =>
      have := ha out hw
      rw [this] at hbad
      exact Bool.noConfusion hbad
    | outOfFuel =>
      exact absurd hw
        (walk_no_fuel P env tfs n lc ec values.length values le_rfl hfree 0 pool)
    | fatalAbort => rfl

theorem c9_double_slot_illegal_witness :
    walkFrameValuesN ⟨true, fun _ => true, false⟩ ⟨[]⟩ 0 2 2 0
        [GValue.primConst BType.tLong 5, GValue.primConst BType.tInt 3] 0 [] =
      RRes.fatalAbort :=
  (c9_double_slot_illegal ⟨true, fun _ => true, false⟩ ⟨[]⟩ 0 2 2 0
      [GValue.primConst BType.tLong 5, GValue.primConst BType.tInt 3] []).2.2
    (by decide) (by simp [okSeq, isDoubleWidth])

end Graal
